import Mathlib

/-! # Quant-puzzle backend: ranking engine, submission intake, admin sessions

A shallow embedding of the request handlers of the puzzle-contest backend
(`routes/puzzles.js`, `routes/leaderboard.js`, `routes/submissions.js`,
`routes/admin.js`) and of the Mongoose schemas they rely on
(`models/Submission.js`, `models/Puzzle.js`, `models/AdminSession.js`).

Conventions of the embedding:

* a JavaScript string is a list of characters (`Str`);
* a `Date` is a natural number of milliseconds;
* a MongoDB collection is the list of its documents in storage order, an
  `ObjectId` is a natural number;
* `find(filter)` is `List.filter`, `.sort({submittedAt: 1})` and the `$sort`
  stage are a stable sort of that list, `$group` emits one document per distinct
  key, in order of first appearance of the key;
* `String.prototype.toLowerCase` is a parameter `lower` of the functions that
  call it; `asciiLower` is the instance used on concrete inputs;
* the identifier in the URL of a request is well-formed, the `puzzleId` in the
  body of a submit request is any value, and a database operation fails only
  through casting, schema validation or a unique index;
* clock readings and generated identifiers (`new Date()`, `Date.now()`,
  `uuidv4()`, the `_id` of a new document) are arguments of the handlers, as is
  the set of files on which `fs.unlinkSync` throws.
-/

namespace QuantPuzzle

/-! ## Strings -/

/-- A JavaScript string value. -/
abbrev Str := List Char

/-- Characters matched by the regular expression class `\s` and removed by
`String.prototype.trim` (ECMAScript WhiteSpace and LineTerminator). -/
def isWhiteSpace (c : Char) : Bool :=
  decide (c.toNat ∈ [0x9, 0xA, 0xB, 0xC, 0xD, 0x20, 0xA0, 0x1680, 0x2028, 0x2029,
    0x202F, 0x205F, 0x3000, 0xFEFF]) ||
  (decide (0x2000 ≤ c.toNat) && decide (c.toNat ≤ 0x200A))

/-- The method `s.trim()`. -/
def trim (s : Str) : Str :=
  ((s.dropWhile isWhiteSpace).reverse.dropWhile isWhiteSpace).reverse

/-- The ASCII part of `s.toLowerCase()`. -/
def asciiLower (s : Str) : Str := s.map Char.toLower

/-- The call `s.replace(/\s+/g, ' ')`, scanning left to right; `inRun` tells
whether the previous character belonged to the whitespace run being replaced. -/
def collapseFrom (inRun : Bool) : Str → Str
  | [] => []
  | c :: cs =>
    if isWhiteSpace c then
      (if inRun then collapseFrom true cs else ' ' :: collapseFrom true cs)
    else c :: collapseFrom false cs

/-- The expression `sub.name.trim().toLowerCase().replace(/\s+/g, ' ')` of
`GET /:id/correct`. -/
def normalize (lower : Str → Str) (name : Str) : Str :=
  collapseFrom false (lower (trim name))

/-! ## Documents -/

/-- The enum of `submissionSchema.status`. -/
inductive Status where
  | pending
  | correct
  | incorrect
  deriving DecidableEq, Repr

/-- A document of the `Submission` collection. -/
structure Submission where
  id : Nat
  puzzleId : Nat
  name : Str
  email : Option Str
  answer : Str
  comments : Str
  submittedAt : Nat
  status : Status
  deriving DecidableEq, Repr

/-- A document of the `Puzzle` collection. -/
structure Puzzle where
  id : Nat
  title : Str
  description : Str
  tags : List Str
  difficulty : Str
  format : Str
  filePath : Option Str
  deadline : Nat
  createdAt : Nat
  solutionFormat : Option Str
  solutionText : Option Str
  solutionFilePath : Option Str
  isActive : Bool
  slug : Str
  deriving DecidableEq, Repr

/-- A document of the `AdminSession` collection. -/
structure AdminSession where
  sessionId : Str
  createdAt : Nat
  userAgent : Option Str
  ip : Option Str
  deriving DecidableEq, Repr

/-- The persistent state: the three collections and the names of the files in
the uploads directory. -/
structure State where
  puzzles : List Puzzle
  submissions : List Submission
  sessions : List AdminSession
  files : List Str
  deriving DecidableEq, Repr

/-- The error taxonomy of the handlers, by HTTP status. -/
inductive Failure where
  | validation
  | unauthorized
  | notFound
  | internal
  deriving DecidableEq, Repr

deriving instance DecidableEq for Except

/-- The query `Puzzle.findById(id)`. -/
def findPuzzleById (st : State) (id : Nat) : Option Puzzle :=
  st.puzzles.find? fun p => decide (p.id = id)

/-! ## Correct solvers of a puzzle (`GET /:id/correct`) -/

/-- An element of the array returned by `GET /:id/correct`. -/
structure SolverEntry where
  name : Str
  email : Option Str
  deriving DecidableEq, Repr

/-- The query `Submission.find({ puzzleId, status: 'correct' })
.sort({ submittedAt: 1 })`. -/
def correctSubs (st : State) (puzzleId : Nat) : List Submission :=
  (st.submissions.filter fun s =>
    decide (s.puzzleId = puzzleId) && decide (s.status = Status.correct)).insertionSort
    fun a b => a.submittedAt ≤ b.submittedAt

/-- One iteration of the loop `for (const sub of correctSubs)`: the state is the
pair of `unique` and `seen`. -/
def uniqueStep (lower : Str → Str) (acc : List SolverEntry × List Str) (sub : Submission) :
    List SolverEntry × List Str :=
  let normalized := normalize lower sub.name
  if normalized ∈ acc.2 then acc
  else (acc.1 ++ [{ name := sub.name, email := sub.email }], acc.2 ++ [normalized])

/-- The loop of `GET /:id/correct`, started with `unique = []` and an empty
`seen`; the result is the final `unique`. -/
def uniqueByName (lower : Str → Str) (subs : List Submission) : List SolverEntry :=
  (subs.foldl (uniqueStep lower) ([], [])).1

/-- The handler of `GET /:id/correct`. -/
def correctSolvers (lower : Str → Str) (st : State) (puzzleId : Nat) :
    Except Failure (List SolverEntry) :=
  match findPuzzleById st puzzleId with
  | none => Except.error Failure.notFound
  | some _ => Except.ok (uniqueByName lower (correctSubs st puzzleId))

/-- First occurrences by key, in the words of the specification: an element is
kept when no earlier element has the same key. -/
def firstOccurrences {α κ : Type} [DecidableEq κ] (key : α → κ) : List α → List α
  | [] => []
  | x :: xs => x :: (firstOccurrences key xs).filter fun y => decide (key y ≠ key x)

/-- The elements of a list not yet seen, by key: the recursive form of the loop
of `GET /:id/correct` on the submissions themselves. -/
def pickNew {α κ : Type} [DecidableEq κ] (key : α → κ) : List κ → List α → List α
  | _, [] => []
  | seen, x :: xs =>
    if key x ∈ seen then pickNew key seen xs else x :: pickNew key (seen ++ [key x]) xs

/-- The entry pushed to `unique` for a submission. -/
def entryOf (s : Submission) : SolverEntry := { name := s.name, email := s.email }

/-! ## Leaderboard (`GET /api/leaderboard`) -/

/-- The accumulator `$min` over the values of a group; a group of `$group` is
never empty, the value on the empty list is a placeholder. -/
def minOf : List Nat → Nat
  | [] => 0
  | x :: xs => xs.foldl min x

/-- The stage `{ $match: { status: 'correct' } }`. -/
def matchCorrect (docs : List Submission) : List Submission :=
  docs.filter fun s => decide (s.status = Status.correct)

/-- An output document of the first `$group` stage: `_id.name`, `_id.puzzleId`,
`email` and `submittedAt`. -/
structure PuzzleSolve where
  name : Str
  puzzleId : Nat
  email : Option Str
  submittedAt : Nat
  deriving DecidableEq, Repr

/-- The output document of the first `$group` stage for the key `k`:
`email: { $first: '$email' }`, `submittedAt: { $min: '$submittedAt' }` over the
input documents with that key. -/
def puzzleSolveOf (docs : List Submission) (k : Str × Nat) : PuzzleSolve :=
  { name := k.1, puzzleId := k.2,
    email := ((docs.filter fun s => decide ((s.name, s.puzzleId) = k)).head?).bind
      fun s => s.email,
    submittedAt :=
      minOf ((docs.filter fun s => decide ((s.name, s.puzzleId) = k)).map
        fun s => s.submittedAt) }

/-- The first `$group` stage, `_id: { name: '$name', puzzleId: '$puzzleId' }`. -/
def groupByNamePuzzle (docs : List Submission) : List PuzzleSolve :=
  (firstOccurrences id (docs.map fun s => (s.name, s.puzzleId))).map (puzzleSolveOf docs)

/-- An output document of the second `$group` stage: `_id`, `email`,
`correctSubmissions` and `firstCorrect`. -/
structure SolverRow where
  name : Str
  email : Option Str
  correctSubmissions : Nat
  firstCorrect : Nat
  deriving DecidableEq, Repr

/-- The output document of the second `$group` stage for the key `k`:
`email: { $first: '$email' }`, `correctSubmissions: { $sum: 1 }`,
`firstCorrect: { $min: '$submittedAt' }` over the input documents with that key. -/
def solverRowOf (docs : List PuzzleSolve) (k : Str) : SolverRow :=
  { name := k,
    email := ((docs.filter fun d => decide (d.name = k)).head?).bind fun d => d.email,
    correctSubmissions := ((docs.filter fun d => decide (d.name = k)).map fun _ => 1).sum,
    firstCorrect :=
      minOf ((docs.filter fun d => decide (d.name = k)).map fun d => d.submittedAt) }

/-- The second `$group` stage, `_id: '$_id.name'`. -/
def groupByName (docs : List PuzzleSolve) : List SolverRow :=
  (firstOccurrences id (docs.map fun d => d.name)).map (solverRowOf docs)

/-- The order of `{ $sort: { correctSubmissions: -1, firstCorrect: 1 } }`. -/
def rankBefore (a b : SolverRow) : Prop :=
  b.correctSubmissions < a.correctSubmissions ∨
    (a.correctSubmissions = b.correctSubmissions ∧ a.firstCorrect ≤ b.firstCorrect)

instance rankBeforeDecidable : DecidableRel rankBefore := fun a b =>
  inferInstanceAs (Decidable (b.correctSubmissions < a.correctSubmissions ∨
    (a.correctSubmissions = b.correctSubmissions ∧ a.firstCorrect ≤ b.firstCorrect)))

/-- The pipeline up to and including `$sort`. -/
def sortedRows (docs : List Submission) : List SolverRow :=
  (groupByName (groupByNamePuzzle (matchCorrect docs))).insertionSort rankBefore

/-- The whole pipeline of `Submission.aggregate`, ending with `{ $limit: 100 }`. -/
def aggregate (docs : List Submission) : List SolverRow :=
  (sortedRows docs).take 100

/-- An element of the array returned by `GET /api/leaderboard`. -/
structure LeaderboardEntry where
  rank : Nat
  name : Str
  email : Option Str
  correctSubmissions : Nat
  deriving DecidableEq, Repr

/-- The call `leaderboard.map((entry, index) => ...)`, for the entries from
position `index` on. -/
def formatFrom (index : Nat) : List SolverRow → List LeaderboardEntry
  | [] => []
  | entry :: rest =>
    { rank := index + 1, name := entry.name, email := entry.email,
      correctSubmissions := entry.correctSubmissions } :: formatFrom (index + 1) rest

/-- The handler of `GET /api/leaderboard`. -/
def computeLeaderboard (st : State) : List LeaderboardEntry :=
  formatFrom 0 (aggregate st.submissions)

/-- Number of distinct puzzles on which the solver called `name` has at least
one correct submission, in the words of the specification. -/
def distinctPuzzlesSolved (docs : List Submission) (name : Str) : Nat :=
  ((docs.filter fun s => decide (s.status = Status.correct) && decide (s.name = name)).map
    fun s => s.puzzleId).toFinset.card

/-- Minimum `submittedAt` over all correct submissions of the solver called
`name`, in the words of the specification. -/
def firstCorrectOf (docs : List Submission) (name : Str) : Nat :=
  minOf ((docs.filter fun s => decide (s.status = Status.correct) && decide (s.name = name)).map
    fun s => s.submittedAt)

/-! ## Submission intake (`POST /api/submissions`) -/

/-- The value of a request field that names a document: a value that Mongoose
casts to an `ObjectId`, a value that it cannot cast (`findById` then throws a
`CastError`), or no value (`findById(undefined)` looks for `_id: null` and
finds nothing). -/
inductive IdParam where
  | objectId (id : Nat)
  | malformed (raw : Str)
  | absent
  deriving DecidableEq, Repr

/-- The fields of `req.body` of `POST /api/submissions`; `none` is an absent
field. The handler reads `puzzleId`, `name`, `email`, `answer` and `comments`;
`status` stands for a field that a client sends although the handler never
reads it. -/
structure SubmitBody where
  puzzleId : IdParam
  name : Option Str
  email : Option Str
  answer : Option Str
  comments : Option Str
  status : Option Str
  deriving DecidableEq, Repr

/-- The responses of `POST /api/submissions`: 201 with the new identifier,
404 `Puzzle not found`, 400 `Puzzle deadline has passed`, 500
`Failed to submit solution`. -/
inductive SubmitResponse where
  | received (submissionId : Nat)
  | puzzleNotFound
  | deadlinePassed
  | failed
  deriving DecidableEq, Repr

/-- The document built by `new Submission({ puzzleId, name, email, answer,
comments })` and checked by `submission.save()` against `submissionSchema`:
`puzzleId` is required and cast to an `ObjectId`, `name` is trimmed and
required, `email` is trimmed and lowercased, `answer` is required, `comments`
defaults to the empty string, `submittedAt` defaults to the clock reading
`stamp`, `status` defaults to `pending`; `newId` is the generated `_id`. The
result is `none` when validation fails (a required value is absent or empty, or
`puzzleId` cannot be cast). -/
def newSubmission (lower : Str → Str) (body : SubmitBody) (stamp newId : Nat) :
    Option Submission :=
  match body.puzzleId, body.name, body.answer with
  | IdParam.objectId puzzleId, some name, some answer =>
    if trim name = [] ∨ answer = [] then none
    else some
      { id := newId, puzzleId := puzzleId, name := trim name,
        email := body.email.map fun e => lower (trim e),
        answer := answer, comments := body.comments.getD [],
        submittedAt := stamp, status := Status.pending }
  | _, _, _ => none

/-- The handler of `POST /api/submissions`; `now` is the value of `new Date()`
in the deadline test. A `puzzleId` that cannot be cast makes
`Puzzle.findById` throw inside the `try`, which ends with the 500 answer. -/
def submit (lower : Str → Str) (st : State) (body : SubmitBody) (now stamp newId : Nat) :
    State × SubmitResponse :=
  match body.puzzleId with
  | IdParam.malformed _ => (st, SubmitResponse.failed)
  | IdParam.absent => (st, SubmitResponse.puzzleNotFound)
  | IdParam.objectId puzzleId =>
    match findPuzzleById st puzzleId with
    | none => (st, SubmitResponse.puzzleNotFound)
    | some puzzle =>
      if puzzle.deadline < now then (st, SubmitResponse.deadlinePassed)
      else
        match newSubmission lower body stamp newId with
        | none => (st, SubmitResponse.failed)
        | some submission =>
          ({ st with submissions := st.submissions ++ [submission] },
            SubmitResponse.received submission.id)

/-- The virtual `status` of `puzzleSchema`: `true` for `'active'`, `false` for
`'closed'`. -/
def puzzleIsActive (p : Puzzle) (now : Nat) : Bool := decide (now < p.deadline)

/-! ## Admin sessions (`routes/admin.js`) -/

/-- The environment configuration read by the admin routes. -/
structure Config where
  adminEmail : Option Str
  adminPassword : Option Str
  jwtSecret : Option Str
  deriving DecidableEq, Repr

/-- The payload `{ email, sessionId }` of a token, with its expiry in seconds. -/
structure AdminClaims where
  email : Option Str
  sessionId : Str
  exp : Nat
  deriving DecidableEq, Repr

/-- The value of the `Authorization` header after `replace('Bearer ', '')`:
either a string that is not a JSON web token, or a token signed with the key
`signedWith` and carrying `claims`. -/
inductive Credential where
  | malformed (raw : Str)
  | jwt (signedWith : Str) (claims : AdminClaims)
  deriving DecidableEq, Repr

/-- The call `jwt.verify(token, process.env.JWT_SECRET)` at time `now`
(milliseconds): `none` when it throws (no secret, malformed token, wrong
signature, or `exp` not after the current second). -/
def jwtVerify (secret : Option Str) (token : Credential) (now : Nat) : Option AdminClaims :=
  match secret, token with
  | some key, Credential.jwt signedWith claims =>
    if signedWith = key ∧ now / 1000 < claims.exp then some claims else none
  | _, _ => none

/-- The middleware `authenticateAdmin`: the decoded claims (`req.admin`) when
`next()` is called, `unauthorized` for each of the three 401 answers. -/
def authenticateAdmin (cfg : Config) (st : State) (auth : Option Credential) (now : Nat) :
    Except Failure AdminClaims :=
  match auth with
  | none => Except.error Failure.unauthorized
  | some token =>
    match jwtVerify cfg.jwtSecret token now with
    | none => Except.error Failure.unauthorized
    | some decoded =>
      match st.sessions.find? fun s => decide (s.sessionId = decoded.sessionId) with
      | none => Except.error Failure.unauthorized
      | some _ => Except.ok decoded

/-- The fields of `req.body` and of the request read by `POST /login`. -/
structure LoginRequest where
  email : Option Str
  password : Option Str
  userAgent : Option Str
  ip : Option Str
  deriving DecidableEq, Repr

/-- The responses of `POST /login`: the token, 401 `Invalid credentials`, 500
`Login failed`. -/
inductive LoginResponse where
  | token (credential : Credential)
  | invalidCredentials
  | failed
  deriving DecidableEq, Repr

/-- The record stored by `AdminSession.create({ sessionId, userAgent, ip })`. -/
def sessionRecord (req : LoginRequest) (sessionId : Str) (now : Nat) : AdminSession :=
  { sessionId := sessionId, createdAt := now, userAgent := req.userAgent, ip := req.ip }

/-- The handler of `POST /login`; `sessionId` is the value of `uuidv4()`.
`AdminSession.create` throws when `sessionId` is empty (it is required) or when
the unique index on `sessionId` is violated; `jwt.sign` throws without a secret
(after the session has been stored). -/
def login (cfg : Config) (st : State) (req : LoginRequest) (sessionId : Str) (now : Nat) :
    State × LoginResponse :=
  if req.email ≠ cfg.adminEmail ∨ req.password ≠ cfg.adminPassword then
    (st, LoginResponse.invalidCredentials)
  else if sessionId = [] ∨ sessionId ∈ st.sessions.map (fun s => s.sessionId) then
    (st, LoginResponse.failed)
  else
    match cfg.jwtSecret with
    | none =>
      ({ st with sessions := st.sessions ++ [sessionRecord req sessionId now] },
        LoginResponse.failed)
    | some secret =>
      ({ st with sessions := st.sessions ++ [sessionRecord req sessionId now] },
        LoginResponse.token (Credential.jwt secret
          { email := cfg.adminEmail, sessionId := sessionId, exp := now / 1000 + 86400 }))

/-- The answer of an admin handler that returns no data of interest: success, or
the failure class of the error answer. -/
abbrev AdminResponse := Except Failure Unit

/-- The handler of `POST /logout` behind `authenticateAdmin`:
`AdminSession.deleteOne({ sessionId })` removes the first matching record. -/
def logout (cfg : Config) (st : State) (auth : Option Credential) (now : Nat) :
    State × AdminResponse :=
  match authenticateAdmin cfg st auth now with
  | Except.error f => (st, Except.error f)
  | Except.ok decoded =>
    ({ st with sessions :=
        st.sessions.eraseP fun s => decide (s.sessionId = decoded.sessionId) },
      Except.ok ())

/-! ## Admin operations on submissions and puzzles (`routes/admin.js`) -/

/-- The test `['pending', 'correct', 'incorrect'].includes(status)` of
`PATCH /submissions/:id`, with the enum value it admits. -/
def parseStatus (status : Option Str) : Option Status :=
  if status = some "pending".toList then some Status.pending
  else if status = some "correct".toList then some Status.correct
  else if status = some "incorrect".toList then some Status.incorrect
  else none

/-- The write of `Submission.findByIdAndUpdate(id, { status })`: the document
with that `_id` gets the new status. -/
def setStatusById (id : Nat) (status : Status) : List Submission → List Submission
  | [] => []
  | s :: rest =>
    if s.id = id then { s with status := status } :: rest
    else s :: setStatusById id status rest

/-- The handler of `PATCH /submissions/:id` behind `authenticateAdmin`. -/
def updateSubmissionStatus (cfg : Config) (st : State) (auth : Option Credential) (now : Nat)
    (id : Nat) (status : Option Str) : State × AdminResponse :=
  match authenticateAdmin cfg st auth now with
  | Except.error f => (st, Except.error f)
  | Except.ok _ =>
    match parseStatus status with
    | none => (st, Except.error Failure.validation)
    | some value =>
      match st.submissions.find? fun s => decide (s.id = id) with
      | none => (st, Except.error Failure.notFound)
      | some _ =>
        ({ st with submissions := setStatusById id value st.submissions }, Except.ok ())

/-- The handler of `DELETE /submissions/:id` behind `authenticateAdmin`. -/
def deleteSubmission (cfg : Config) (st : State) (auth : Option Credential) (now : Nat)
    (id : Nat) : State × AdminResponse :=
  match authenticateAdmin cfg st auth now with
  | Except.error f => (st, Except.error f)
  | Except.ok _ =>
    match st.submissions.find? fun s => decide (s.id = id) with
    | none => (st, Except.error Failure.notFound)
    | some _ =>
      ({ st with submissions := st.submissions.eraseP fun s => decide (s.id = id) },
        Except.ok ())

/-- The statement `if (path) { if (fs.existsSync(p)) fs.unlinkSync(p) }` of
`DELETE /puzzles/:id` on the uploads directory; `unlinkThrows` tells for which
files `fs.unlinkSync` throws. The result is `none` when it throws. -/
def unlinkIfExists (unlinkThrows : Str → Bool) (files : List Str) (path : Option Str) :
    Option (List Str) :=
  match path with
  | none => some files
  | some f =>
    if f = [] then some files
    else if f ∈ files then
      (if unlinkThrows f then none else some (files.filter fun g => decide (g ≠ f)))
    else some files

/-- The handler of `DELETE /puzzles/:id` behind `authenticateAdmin`: the puzzle
record is deleted first, then its files, then its submissions; an exception of
`fs.unlinkSync` ends the handler with the 500 answer. -/
def deletePuzzle (unlinkThrows : Str → Bool) (cfg : Config) (st : State)
    (auth : Option Credential) (now : Nat) (id : Nat) : State × AdminResponse :=
  match authenticateAdmin cfg st auth now with
  | Except.error f => (st, Except.error f)
  | Except.ok _ =>
    match findPuzzleById st id with
    | none => (st, Except.error Failure.notFound)
    | some puzzle =>
      match unlinkIfExists unlinkThrows st.files puzzle.filePath with
      | none =>
        ({ st with puzzles := st.puzzles.eraseP fun p => decide (p.id = id) },
          Except.error Failure.internal)
      | some files1 =>
        match unlinkIfExists unlinkThrows files1 puzzle.solutionFilePath with
        | none =>
          ({ st with puzzles := st.puzzles.eraseP fun p => decide (p.id = id),
                     files := files1 },
            Except.error Failure.internal)
        | some files2 =>
          ({ st with puzzles := st.puzzles.eraseP fun p => decide (p.id = id),
                     files := files2,
                     submissions := st.submissions.filter fun s => decide (s.puzzleId ≠ id) },
            Except.ok ())

/-- The fields of `req.body` read by `POST /puzzles` and `PATCH /puzzles/:id`. -/
structure PuzzleBody where
  title : Option Str
  description : Option Str
  tags : Option Str
  difficulty : Option Str
  format : Option Str
  deadline : Option Str
  solutionFormat : Option Str
  solutionText : Option Str
  deriving DecidableEq, Repr

/-- The names under which `multer` has stored the files `puzzleFile` and
`solutionFile` of a request (`req.files`). -/
structure Uploads where
  puzzleFile : Option Str
  solutionFile : Option Str
  deriving DecidableEq, Repr

/-- Library functions of the puzzle handlers: `slugify(title, { lower: true,
strict: true })` and the parsing done by `new Date(string)`, whose result is
`none` for an invalid date. -/
structure PuzzleEnv where
  slugify : Str → Str
  parseDate : Str → Option Nat

/-- The call `s.split(',')`. -/
def splitComma : Str → List Str
  | [] => [[]]
  | c :: cs =>
    match splitComma cs with
    | [] => if c = ',' then [[], []] else [[c]]
    | w :: ws => if c = ',' then [] :: w :: ws else (c :: w) :: ws

/-- The expression `tags.split(',').map((tag) => tag.trim())`. -/
def parseTags (tags : Str) : List Str := (splitComma tags).map trim

/-- The enum of `puzzleSchema.difficulty`. -/
def difficulties : List Str :=
  ["Easy".toList, "Medium".toList, "Hard".toList, "Expert".toList]

/-- The enum of `puzzleSchema.format` and `puzzleSchema.solutionFormat`. -/
def formats : List Str := ["text".toList, "latex".toList, "image".toList, "pdf".toList]

/-- The enum validator of `solutionFormat`: an absent value passes. -/
def invalidFormat (value : Option Str) : Bool :=
  match value with
  | none => false
  | some f => !decide (f ∈ formats)

/-- The slug of a new or renamed puzzle: `slugify(title)`, with the suffix
`'-' + Date.now()` when another puzzle (other than `except`) has that slug. -/
def freshSlug (env : PuzzleEnv) (st : State) (except : Option Nat) (title : Str) (now : Nat) :
    Str :=
  if (st.puzzles.find? fun p =>
      decide (p.slug = env.slugify title) && decide (some p.id ≠ except)).isSome then
    env.slugify title ++ '-' :: (toString now).toList
  else env.slugify title

/-- The document built by `new Puzzle(puzzleData)` in `POST /puzzles` and
checked by `puzzle.save()` against `puzzleSchema` and the unique indexes on
`slug` and `_id`; `none` when the handler throws. -/
def newPuzzle (env : PuzzleEnv) (st : State) (body : PuzzleBody) (uploads : Uploads)
    (now newId : Nat) : Option Puzzle :=
  match body.title, body.description, body.difficulty, body.format,
      body.deadline.bind env.parseDate with
  | some title, some description, some difficulty, some format, some deadline =>
    if trim title = [] ∨ description = [] ∨ difficulty ∉ difficulties ∨ format ∉ formats ∨
        ((format = "image".toList ∨ format = "pdf".toList) ∧
          (uploads.puzzleFile = none ∨ uploads.puzzleFile = some [])) ∨
        invalidFormat body.solutionFormat = true ∨
        trim (freshSlug env st none title now) = [] ∨
        trim (freshSlug env st none title now) ∈ st.puzzles.map (fun p => p.slug) ∨
        newId ∈ st.puzzles.map (fun p => p.id) then none
    else some
      { id := newId, title := trim title, description := description,
        tags := (match body.tags with
          | none => []
          | some t => if t = [] then [] else (parseTags t).map trim),
        difficulty := difficulty, format := format, filePath := uploads.puzzleFile,
        deadline := deadline, createdAt := now, solutionFormat := body.solutionFormat,
        solutionText := body.solutionText, solutionFilePath := uploads.solutionFile,
        isActive := true, slug := trim (freshSlug env st none title now) }
  | _, _, _, _, _ => none


/-- The handler of `POST /puzzles` behind `authenticateAdmin` and
`upload.fields`: the uploaded files are stored before the handler runs. -/
def createPuzzle (env : PuzzleEnv) (cfg : Config) (st : State) (auth : Option Credential)
    (now : Nat) (body : PuzzleBody) (uploads : Uploads) (newId : Nat) :
    State × AdminResponse :=
  match authenticateAdmin cfg st auth now with
  | Except.error f => (st, Except.error f)
  | Except.ok _ =>
    match newPuzzle env st body uploads now newId with
    | none =>
      ({ st with files := st.files ++ uploads.puzzleFile.toList ++ uploads.solutionFile.toList },
        Except.error Failure.internal)
    | some puzzle =>
      ({ st with files := st.files ++ uploads.puzzleFile.toList ++ uploads.solutionFile.toList,
                 puzzles := st.puzzles ++ [puzzle] },
        Except.ok ())

/-- The object `updateData` of `PATCH /puzzles/:id` applied to a puzzle; a
string is truthy when it is not empty, and the `trim` setters of the schema are
applied to the written strings as they are on `save`. -/
def applyUpdate (env : PuzzleEnv) (st : State) (body : PuzzleBody) (now : Nat) (deadline : Option Nat)
    (p : Puzzle) : Puzzle :=
  { p with
    title := (match body.title with
      | some t => if t = [] then p.title else trim t
      | none => p.title),
    slug := (match body.title with
      | some t => if t = [] then p.slug else trim (freshSlug env st (some p.id) t now)
      | none => p.slug),
    description := body.description.getD p.description,
    tags := (match body.tags with
      | some t => (parseTags t).map trim
      | none => p.tags),
    difficulty := (match body.difficulty with
      | some d => if d = [] then p.difficulty else d
      | none => p.difficulty),
    format := (match body.format with
      | some f => if f = [] then p.format else f
      | none => p.format),
    deadline := deadline.getD p.deadline,
    solutionFormat := (match body.solutionFormat with
      | some f => if f = [] then p.solutionFormat else some f
      | none => p.solutionFormat),
    solutionText := (match body.solutionText with
      | some t => some t
      | none => p.solutionText) }

/-- The write of `Puzzle.findByIdAndUpdate(id, updateData)`. -/
def updatePuzzleById (id : Nat) (f : Puzzle → Puzzle) : List Puzzle → List Puzzle
  | [] => []
  | p :: rest => if p.id = id then f p :: rest else p :: updatePuzzleById id f rest

/-- The field `updateData.deadline` of `PATCH /puzzles/:id`: `some none` when
the field is not set (absent or empty `deadline`), `some (some t)` for a date,
`none` when `new Date(deadline)` is not a date and the update throws. -/
def updateDeadline (env : PuzzleEnv) (deadline : Option Str) : Option (Option Nat) :=
  match deadline with
  | none => some none
  | some d => if d = [] then some none else (env.parseDate d).map some

/-- The handler of `PATCH /puzzles/:id` behind `authenticateAdmin`; the update
also throws when the new slug is already used by another puzzle. -/
def updatePuzzle (env : PuzzleEnv) (cfg : Config) (st : State) (auth : Option Credential)
    (now : Nat) (id : Nat) (body : PuzzleBody) : State × AdminResponse :=
  match authenticateAdmin cfg st auth now with
  | Except.error f => (st, Except.error f)
  | Except.ok _ =>
    match updateDeadline env body.deadline with
    | none => (st, Except.error Failure.internal)
    | some deadline =>
      match findPuzzleById st id with
      | none => (st, Except.error Failure.notFound)
      | some p =>
        if (st.puzzles.find? fun q => decide (q.id ≠ id) &&
            decide (q.slug = (applyUpdate env st body now deadline p).slug)).isSome then
          (st, Except.error Failure.internal)
        else
          ({ st with
              puzzles := updatePuzzleById id (applyUpdate env st body now deadline) st.puzzles },
            Except.ok ())

/-! ## The system as a transition system -/

/-- What the handlers take from outside the repository: the lowercasing of
strings, the library functions of the puzzle handlers, the failures of
`fs.unlinkSync`, and the environment configuration. -/
structure Env where
  lower : Str → Str
  puzzleEnv : PuzzleEnv
  unlinkThrows : Str → Bool
  cfg : Config

/-- A request to a state-changing route, with the clock readings and generated
identifiers that its handler draws. -/
inductive Op where
  | submit (body : SubmitBody) (now stamp newId : Nat)
  | login (req : LoginRequest) (sessionId : Str) (now : Nat)
  | logout (auth : Option Credential) (now : Nat)
  | updateSubmission (auth : Option Credential) (now : Nat) (id : Nat) (status : Option Str)
  | deleteSubmission (auth : Option Credential) (now : Nat) (id : Nat)
  | createPuzzle (auth : Option Credential) (now : Nat) (body : PuzzleBody) (uploads : Uploads)
      (newId : Nat)
  | updatePuzzle (auth : Option Credential) (now : Nat) (id : Nat) (body : PuzzleBody)
  | deletePuzzle (auth : Option Credential) (now : Nat) (id : Nat)

/-- The state after a request has been handled. -/
def step (env : Env) (st : State) : Op → State
  | Op.submit body now stamp newId => (submit env.lower st body now stamp newId).1
  | Op.login req sessionId now => (login env.cfg st req sessionId now).1
  | Op.logout auth now => (logout env.cfg st auth now).1
  | Op.updateSubmission auth now id status =>
    (updateSubmissionStatus env.cfg st auth now id status).1
  | Op.deleteSubmission auth now id => (deleteSubmission env.cfg st auth now id).1
  | Op.createPuzzle auth now body uploads newId =>
    (createPuzzle env.puzzleEnv env.cfg st auth now body uploads newId).1
  | Op.updatePuzzle auth now id body => (updatePuzzle env.puzzleEnv env.cfg st auth now id body).1
  | Op.deletePuzzle auth now id => (deletePuzzle env.unlinkThrows env.cfg st auth now id).1

/-- The state after a sequence of requests. -/
def run (env : Env) (st : State) (ops : List Op) : State := ops.foldl (step env) st

/-- The state of a fresh installation: empty collections, empty uploads
directory. -/
def emptyState : State := { puzzles := [], submissions := [], sessions := [], files := [] }

/-- A state that the system reaches from a fresh installation. -/
def Reachable (env : Env) (st : State) : Prop := ∃ ops : List Op, st = run env emptyState ops

/-- The unique index of `adminSessionSchema.sessionId` holds. -/
def UniqueSessions (st : State) : Prop := (st.sessions.map fun s => s.sessionId).Nodup

/-- Whether a request is a login that draws the session identifier `sid`. -/
def Op.drawsSession (sid : Str) : Op → Bool
  | Op.login _ sessionId _ => decide (sessionId = sid)
  | _ => false

/-- Whether a request is addressed to `PATCH /submissions/:id`. -/
def Op.isUpdateSubmission : Op → Bool
  | Op.updateSubmission _ _ _ _ => true
  | _ => false

/-- The submissions selected by the specification of `correctSolvers`: the first
occurrence of every normalized name among the correct submissions of the puzzle
in ascending `submittedAt` order. -/
def earliestPicks (lower : Str → Str) (st : State) (puzzleId : Nat) : List Submission :=
  firstOccurrences (fun s => normalize lower s.name) (correctSubs st puzzleId)

/-! ## Concrete states used to evaluate the handlers -/

/-- A text puzzle with the given identifier and deadline. -/
def samplePuzzle (id deadline : Nat) : Puzzle :=
  { id := id, title := "Dice".toList, description := "Two dice".toList, tags := [],
    difficulty := "Easy".toList, format := "text".toList, filePath := none,
    deadline := deadline, createdAt := 0, solutionFormat := none, solutionText := none,
    solutionFilePath := none, isActive := true, slug := "dice".toList }

/-- A submission with the given identifier, puzzle, name, email, time and status. -/
def sampleSub (id puzzleId : Nat) (name : String) (email : String) (submittedAt : Nat)
    (status : Status) : Submission :=
  { id := id, puzzleId := puzzleId, name := name.toList, email := some email.toList,
    answer := "42".toList, comments := [], submittedAt := submittedAt, status := status }

/-- The scenario of two spellings of one name: the later spelling is stored
first, a second solver and a pending submission are present too. -/
def janeState : State :=
  { puzzles := [samplePuzzle 1 1000],
    submissions :=
      [sampleSub 1 1 "jane  doe" "jd@x.org" 200 Status.correct,
       sampleSub 2 1 "Jane Doe" "jane@x.org" 100 Status.correct,
       sampleSub 3 1 "Bob" "bob@x.org" 150 Status.correct,
       sampleSub 4 1 "Eve" "eve@x.org" 120 Status.pending,
       sampleSub 5 2 "Zed" "zed@x.org" 10 Status.correct],
    sessions := [], files := [] }

/-- A leaderboard scenario: Ann is correct twice on puzzle 1 and once on puzzle
2, Bob once on puzzle 1, Cy once on puzzle 2 (earlier than Bob), Dan never. -/
def boardState : State :=
  { puzzles := [samplePuzzle 1 1000, samplePuzzle 2 1000],
    submissions :=
      [sampleSub 1 1 "Bob" "bob@x.org" 70 Status.correct,
       sampleSub 2 1 "Ann" "ann@x.org" 90 Status.correct,
       sampleSub 3 1 "Ann" "ann2@x.org" 60 Status.correct,
       sampleSub 4 2 "Ann" "ann@x.org" 80 Status.correct,
       sampleSub 5 2 "Cy" "cy@x.org" 50 Status.correct,
       sampleSub 6 2 "Dan" "dan@x.org" 40 Status.incorrect,
       sampleSub 7 1 "Bob" "bob@x.org" 30 Status.pending],
    sessions := [], files := [] }

/-- The part of a leaderboard that ranks solvers: rank, name and
`correctSubmissions` of every entry, without the email. -/
def rankingOf (board : List LeaderboardEntry) : List (Nat × Str × Nat) :=
  board.map fun e => (e.rank, e.name, e.correctSubmissions)

/-- The sort keys of a row of the second `$group` stage, with the solver name. -/
def rowCore (r : SolverRow) : Str × Nat × Nat :=
  (r.name, r.correctSubmissions, r.firstCorrect)

/-- Two correct submissions of one solver on one puzzle, with different emails. -/
def emailOrderA : State :=
  { puzzles := [samplePuzzle 1 1000],
    submissions :=
      [sampleSub 1 1 "Ann" "ann@x.org" 10 Status.correct,
       sampleSub 2 1 "Ann" "ann@y.org" 20 Status.correct],
    sessions := [], files := [] }

/-- The submissions of `emailOrderA`, stored in the other order. -/
def emailOrderB : State :=
  { puzzles := [samplePuzzle 1 1000],
    submissions :=
      [sampleSub 2 1 "Ann" "ann@y.org" 20 Status.correct,
       sampleSub 1 1 "Ann" "ann@x.org" 10 Status.correct],
    sessions := [], files := [] }

/-- Two solvers tied on both `correctSubmissions` and `firstCorrect`. -/
def tieOrderA : State :=
  { puzzles := [samplePuzzle 1 1000],
    submissions :=
      [sampleSub 1 1 "Bob" "bob@x.org" 50 Status.correct,
       sampleSub 2 1 "Cy" "cy@x.org" 50 Status.correct],
    sessions := [], files := [] }

/-- The submissions of `tieOrderA`, stored in the other order. -/
def tieOrderB : State :=
  { puzzles := [samplePuzzle 1 1000],
    submissions :=
      [sampleSub 2 1 "Cy" "cy@x.org" 50 Status.correct,
       sampleSub 1 1 "Bob" "bob@x.org" 50 Status.correct],
    sessions := [], files := [] }

/-- The submissions of `boardState`, stored in reverse order. -/
def boardStateReversed : State :=
  { boardState with submissions := boardState.submissions.reverse }

/-- No two solvers with a correct submission tie exactly on both the number of
distinct puzzles solved and the time of the first correct submission. -/
def NoExactTie (docs : List Submission) : Prop :=
  ∀ s ∈ docs, ∀ s' ∈ docs, s.status = Status.correct → s'.status = Status.correct →
    distinctPuzzlesSolved docs s.name = distinctPuzzlesSolved docs s'.name →
    firstCorrectOf docs s.name = firstCorrectOf docs s'.name → s.name = s'.name

instance noExactTieDecidable (docs : List Submission) : Decidable (NoExactTie docs) := by
  unfold NoExactTie
  infer_instance

/-- A configuration with an administrator and a signing secret. -/
def sampleCfg : Config :=
  { adminEmail := some "admin@x.org".toList, adminPassword := some "pw".toList,
    jwtSecret := some "secret".toList }

/-- The value of `new Date(s)` on the date string of the concrete scenarios,
the first millisecond of the year 2030 (UTC); other strings are taken as not
being dates. -/
def parseSampleDate (s : Str) : Option Nat :=
  if s = "2030-01-01T00:00:00.000Z".toList then some 1893456000000 else none

/-- An environment for the concrete scenarios: ASCII lowercasing, identity
slugs, one date string, no failing file removal. -/
def sampleEnv : Env :=
  { lower := asciiLower, puzzleEnv := { slugify := fun s => s, parseDate := parseSampleDate },
    unlinkThrows := fun _ => false, cfg := sampleCfg }

/-- The login request of the administrator. -/
def adminLogin : LoginRequest :=
  { email := some "admin@x.org".toList, password := some "pw".toList, userAgent := none,
    ip := none }

/-- The credential issued for the session `s1` at time 0. -/
def sampleToken : Credential :=
  Credential.jwt "secret".toList
    { email := some "admin@x.org".toList, sessionId := "s1".toList, exp := 86400 }

/-- A submit request with name "Ann" and answer "42" on the given puzzle. -/
def sampleBody (puzzleId : Nat) : SubmitBody :=
  { puzzleId := IdParam.objectId puzzleId, name := some "Ann".toList, email := some "Ann@X.org".toList,
    answer := some "42".toList, comments := none, status := none }

/-- One puzzle with deadline 1000, one earlier submission of Ann on it that has
been marked correct, and the open admin sessions `s1` and `s2`. -/
def openState : State :=
  { puzzles := [samplePuzzle 1 1000],
    submissions := [sampleSub 1 1 "Ann" "ann@x.org" 10 Status.correct],
    sessions := [⟨"s1".toList, 0, none, none⟩, ⟨"s2".toList, 5, none, none⟩],
    files := [] }

/-- The state after the administrator's first login on a fresh installation. -/
def loggedIn : State :=
  { emptyState with sessions := [sessionRecord adminLogin "s1".toList 0] }

/-- The body of a request that creates a text puzzle whose deadline is the
start of the year 2030. -/
def diceBody : PuzzleBody :=
  { title := some "Dice".toList, description := some "Two dice".toList, tags := none,
    difficulty := some "Easy".toList, format := some "text".toList,
    deadline := some "2030-01-01T00:00:00.000Z".toList, solutionFormat := none,
    solutionText := none }

/-- A run from a fresh installation: the administrator logs in and creates a
puzzle, Ann submits, the administrator marks the submission correct and then
sets it back to pending. -/
def statusTrace : List Op :=
  [Op.login adminLogin "s1".toList 0,
   Op.createPuzzle (some sampleToken) 1 diceBody ⟨none, none⟩ 1,
   Op.submit (sampleBody 1) 500 500 1,
   Op.updateSubmission (some sampleToken) 600 1 (some "correct".toList),
   Op.updateSubmission (some sampleToken) 700 1 (some "pending".toList)]

/-! ## Referential integrity of submissions -/

/-- The handler of `GET /api/puzzles/:id`. -/
def getPuzzle (st : State) (id : Nat) : Except Failure Puzzle :=
  match findPuzzleById st id with
  | none => Except.error Failure.notFound
  | some puzzle => Except.ok puzzle

/-- Every stored submission references a stored puzzle. -/
def References (st : State) : Prop :=
  ∀ s ∈ st.submissions, ∃ p ∈ st.puzzles, p.id = s.puzzleId

instance referencesDecidable (st : State) : Decidable (References st) := by
  unfold References
  infer_instance

/-- The unique index on `_id` of the `Puzzle` collection holds. -/
def UniquePuzzleIds (st : State) : Prop := (st.puzzles.map fun p => p.id).Nodup

/-- Whether a request is a puzzle deletion that ends with the 500 answer in the
state `st`. -/
def Op.deleteFails (env : Env) (st : State) : Op → Bool
  | Op.deletePuzzle auth now id =>
    decide ((QuantPuzzle.deletePuzzle env.unlinkThrows env.cfg st auth now id).2 =
      Except.error Failure.internal)
  | _ => false

/-- The environment of the concrete scenarios, except that `fs.unlinkSync`
throws on every file. -/
def failingEnv : Env := { sampleEnv with unlinkThrows := fun _ => true }

/-- The body of a request that creates an image puzzle with the same deadline. -/
def imageBody : PuzzleBody := { diceBody with format := some "image".toList }

/-- A run from a fresh installation: the administrator logs in and creates an
image puzzle with an uploaded file, Ann submits an answer, and the
administrator deletes the puzzle. -/
def orphanTrace : List Op :=
  [Op.login adminLogin "s1".toList 0,
   Op.createPuzzle (some sampleToken) 1 imageBody ⟨some "puzzleFile-1.png".toList, none⟩ 1,
   Op.submit (sampleBody 1) 500 500 1,
   Op.deletePuzzle (some sampleToken) 600 1]

/-! ## Lemmas on first occurrences -/

theorem firstOccurrences_sublist {α κ : Type} [DecidableEq κ] (key : α → κ) (l : List α) :
    (firstOccurrences key l).Sublist l := by
  induction l with
  | nil => exact List.Sublist.refl _
  | cons x xs ih =>
    simp only [firstOccurrences]
    exact ((List.filter_sublist _).trans ih).cons₂ x

theorem firstOccurrences_keys_pairwise {α κ : Type} [DecidableEq κ] (key : α → κ)
    (l : List α) : (firstOccurrences key l).Pairwise fun a b => key a ≠ key b := by
  induction l with
  | nil => exact List.Pairwise.nil
  | cons x xs ih =>
    simp only [firstOccurrences]
    refine List.Pairwise.cons ?_ (ih.sublist (List.filter_sublist _))
    intro y hy
    have h := (List.mem_filter.1 hy).2
    simp only [decide_eq_true_eq] at h
    exact fun e => h e.symm

theorem firstOccurrences_covers {α κ : Type} [DecidableEq κ] (key : α → κ) (l : List α)
    (x : α) (hx : x ∈ l) : ∃ y ∈ firstOccurrences key l, key y = key x := by
  induction l with
  | nil => cases hx
  | cons a as ih =>
    simp only [firstOccurrences]
    rcases List.mem_cons.1 hx with rfl | hx
    · exact ⟨x, List.mem_cons_self _ _, rfl⟩
    · obtain ⟨y, hy, hk⟩ := ih hx
      by_cases hya : key y = key a
      · exact ⟨a, List.mem_cons_self _ _, hya.symm.trans hk⟩
      · refine ⟨y, List.mem_cons_of_mem _ (List.mem_filter.2 ⟨hy, ?_⟩), hk⟩
        simpa using hya

theorem firstOccurrences_earliest {α κ : Type} [DecidableEq κ] (key : α → κ) (t : α → Nat)
    (l : List α) (hs : l.Pairwise fun a b => t a ≤ t b) :
    ∀ y ∈ firstOccurrences key l, ∀ s ∈ l, key s = key y → t y ≤ t s := by
  induction l with
  | nil => intro y hy; cases hy
  | cons a as ih =>
    intro y hy s hsl hk
    simp only [firstOccurrences] at hy
    obtain ⟨ha, has⟩ := List.pairwise_cons.1 hs
    rcases List.mem_cons.1 hy with rfl | hy
    · rcases List.mem_cons.1 hsl with rfl | hsl
      · exact Nat.le_refl _
      · exact ha s hsl
    · obtain ⟨hy1, hy2⟩ := List.mem_filter.1 hy
      simp only [decide_eq_true_eq] at hy2
      rcases List.mem_cons.1 hsl with rfl | hsl
      · exact absurd hk.symm hy2
      · exact ih has y hy1 s hsl hk

theorem pickNew_eq_filter {α κ : Type} [DecidableEq κ] (key : α → κ) (l : List α) :
    ∀ seen : List κ,
      pickNew key seen l = (firstOccurrences key l).filter fun y => decide (key y ∉ seen) := by
  induction l with
  | nil => intro seen; rfl
  | cons x xs ih =>
    intro seen
    by_cases hx : key x ∈ seen
    · simp only [pickNew, hx, if_true, firstOccurrences, List.filter_cons, not_true_eq_false,
        decide_False, Bool.false_eq_true, if_false, List.filter_filter, ih]
      apply List.filter_congr
      intro y _
      by_cases hy : key y ∈ seen
      · simp [hy]
      · have : key y ≠ key x := fun e => hy (e ▸ hx)
        simp [hy, this]
    · simp only [pickNew, hx, if_false, firstOccurrences, List.filter_cons, not_false_eq_true,
        decide_True, if_true, List.filter_filter, ih]
      congr 1
      apply List.filter_congr
      intro y _
      by_cases hy : key y ∈ seen
      · simp [hy]
      · by_cases hyx : key y = key x
        · simp [hy, hyx]
        · simp [hy, hyx]

theorem pickNew_nil_seen {α κ : Type} [DecidableEq κ] (key : α → κ) (l : List α) :
    pickNew key [] l = firstOccurrences key l := by
  rw [pickNew_eq_filter]
  simp

theorem foldl_uniqueStep (lower : Str → Str) (subs : List Submission) :
    ∀ acc : List SolverEntry × List Str,
      subs.foldl (uniqueStep lower) acc =
        (acc.1 ++ (pickNew (fun s => normalize lower s.name) acc.2 subs).map entryOf,
         acc.2 ++ (pickNew (fun s => normalize lower s.name) acc.2 subs).map
            fun s => normalize lower s.name) := by
  induction subs with
  | nil => intro acc; simp [pickNew]
  | cons s ss ih =>
    intro acc
    rw [List.foldl_cons, ih]
    by_cases h : normalize lower s.name ∈ acc.2
    · simp [uniqueStep, pickNew, h]
    · simp [uniqueStep, pickNew, h, entryOf]

theorem uniqueByName_eq (lower : Str → Str) (subs : List Submission) :
    uniqueByName lower subs =
      (firstOccurrences (fun s => normalize lower s.name) subs).map entryOf := by
  simp [uniqueByName, foldl_uniqueStep, pickNew_nil_seen]

theorem correctSubs_sorted (st : State) (puzzleId : Nat) :
    (correctSubs st puzzleId).Pairwise fun a b => a.submittedAt ≤ b.submittedAt := by
  haveI : IsTotal Submission (fun a b => a.submittedAt ≤ b.submittedAt) :=
    ⟨fun a b => Nat.le_total _ _⟩
  haveI : IsTrans Submission (fun a b => a.submittedAt ≤ b.submittedAt) :=
    ⟨fun _ _ _ h1 h2 => Nat.le_trans h1 h2⟩
  exact List.sorted_insertionSort _ _

theorem mem_correctSubs (st : State) (puzzleId : Nat) (s : Submission) :
    s ∈ correctSubs st puzzleId ↔
      s ∈ st.submissions ∧ s.puzzleId = puzzleId ∧ s.status = Status.correct := by
  unfold correctSubs
  rw [(List.perm_insertionSort _ _).mem_iff, List.mem_filter]
  simp

/-! ## Lemmas on the aggregation pipeline -/

theorem mem_distinct {κ : Type} [DecidableEq κ] (l : List κ) (x : κ) :
    x ∈ firstOccurrences id l ↔ x ∈ l := by
  constructor
  · exact fun h => (firstOccurrences_sublist id l).subset h
  · intro h
    obtain ⟨y, hy, hk⟩ := firstOccurrences_covers id l x h
    simp only [id] at hk
    exact hk ▸ hy

theorem nodup_distinct {κ : Type} [DecidableEq κ] (l : List κ) :
    (firstOccurrences id l).Nodup :=
  firstOccurrences_keys_pairwise id l

theorem foldl_min_le_init (l : List Nat) : ∀ a : Nat, l.foldl min a ≤ a := by
  induction l with
  | nil => intro a; exact Nat.le_refl _
  | cons x xs ih => intro a; exact Nat.le_trans (ih (min a x)) (Nat.min_le_left a x)

theorem foldl_min_le_mem (l : List Nat) : ∀ a : Nat, ∀ x ∈ l, l.foldl min a ≤ x := by
  induction l with
  | nil => intro a x hx; cases hx
  | cons y ys ih =>
    intro a x hx
    rcases List.mem_cons.1 hx with rfl | hx
    · exact Nat.le_trans (foldl_min_le_init ys (min a x)) (Nat.min_le_right a x)
    · exact ih (min a y) x hx

theorem foldl_min_mem (l : List Nat) : ∀ a : Nat, l.foldl min a = a ∨ l.foldl min a ∈ l := by
  induction l with
  | nil => intro a; exact Or.inl rfl
  | cons y ys ih =>
    intro a
    rcases ih (min a y) with h | h
    · rcases Nat.le_total a y with hay | hya
      · left; rw [List.foldl_cons, h, Nat.min_eq_left hay]
      · right; rw [List.foldl_cons, h, Nat.min_eq_right hya]; exact List.mem_cons_self _ _
    · right; exact List.mem_cons_of_mem _ h

theorem minOf_le (l : List Nat) (x : Nat) (hx : x ∈ l) : minOf l ≤ x := by
  cases l with
  | nil => cases hx
  | cons a as =>
    rcases List.mem_cons.1 hx with rfl | hx
    · exact foldl_min_le_init as x
    · exact foldl_min_le_mem as a x hx

theorem minOf_mem (l : List Nat) (hl : l ≠ []) : minOf l ∈ l := by
  cases l with
  | nil => exact absurd rfl hl
  | cons a as =>
    rcases foldl_min_mem as a with h | h
    · simp only [minOf, h]; exact List.mem_cons_self _ _
    · exact List.mem_cons_of_mem _ h

theorem le_minOf (l : List Nat) (hl : l ≠ []) (m : Nat) (h : ∀ x ∈ l, m ≤ x) : m ≤ minOf l :=
  h _ (minOf_mem l hl)

theorem minOf_eq_of_same_members (l l' : List Nat) (hl : l ≠ []) (hl' : l' ≠ [])
    (h : ∀ x, x ∈ l ↔ x ∈ l') : minOf l = minOf l' :=
  Nat.le_antisymm (minOf_le l _ ((h _).2 (minOf_mem l' hl')))
    (minOf_le l' _ ((h _).1 (minOf_mem l hl)))

theorem sum_ones {α : Type} (l : List α) : (l.map fun _ => 1).sum = l.length := by
  induction l with
  | nil => rfl
  | cons x xs ih => simp only [List.map_cons, List.sum_cons, ih, List.length_cons]; omega

theorem mem_formatFrom (rows : List SolverRow) :
    ∀ (index : Nat) (e : LeaderboardEntry), e ∈ formatFrom index rows →
      ∃ row ∈ rows, e.name = row.name ∧ e.email = row.email ∧
        e.correctSubmissions = row.correctSubmissions := by
  induction rows with
  | nil => intro index e he; cases he
  | cons r rs ih =>
    intro index e he
    simp only [formatFrom] at he
    rcases List.mem_cons.1 he with rfl | he
    · exact ⟨r, List.mem_cons_self _ _, rfl, rfl, rfl⟩
    · obtain ⟨row, hrow, h⟩ := ih (index + 1) e he
      exact ⟨row, List.mem_cons_of_mem _ hrow, h⟩

theorem length_formatFrom (rows : List SolverRow) :
    ∀ index : Nat, (formatFrom index rows).length = rows.length := by
  induction rows with
  | nil => intro index; rfl
  | cons r rs ih => intro index; simp only [formatFrom, List.length_cons, ih]

theorem getElem?_formatFrom (rows : List SolverRow) :
    ∀ (index k : Nat), (formatFrom index rows)[k]? =
      (rows[k]?).map fun row =>
        { rank := index + k + 1, name := row.name, email := row.email,
          correctSubmissions := row.correctSubmissions } := by
  induction rows with
  | nil => intro index k; simp [formatFrom]
  | cons r rs ih =>
    intro index k
    cases k with
    | zero => simp [formatFrom]
    | succ k =>
      simp only [formatFrom, List.getElem?_cons_succ, ih]
      congr 1
      funext row
      congr 1
      omega

theorem pairwise_formatFrom (R : SolverRow → SolverRow → Prop)
    (Q : LeaderboardEntry → LeaderboardEntry → Prop)
    (hRQ : ∀ (a b : SolverRow) (i j : Nat), R a b →
      Q ⟨i, a.name, a.email, a.correctSubmissions⟩ ⟨j, b.name, b.email, b.correctSubmissions⟩)
    (rows : List SolverRow) (h : rows.Pairwise R) :
    ∀ index : Nat, (formatFrom index rows).Pairwise Q := by
  induction rows with
  | nil => intro index; exact List.Pairwise.nil
  | cons r rs ih =>
    intro index
    obtain ⟨h1, h2⟩ := List.pairwise_cons.1 h
    simp only [formatFrom]
    refine List.Pairwise.cons ?_ (ih h2 (index + 1))
    intro e he
    have hlen := length_formatFrom rs (index + 1)
    obtain ⟨k, hk, rfl⟩ := List.getElem_of_mem he
    have hk2 : k < rs.length := hlen ▸ hk
    have hget := getElem?_formatFrom rs (index + 1) k
    rw [List.getElem?_eq_getElem hk, List.getElem?_eq_getElem hk2, Option.map_some'] at hget
    injection hget with hget
    rw [hget]
    exact hRQ r rs[k] _ _ (h1 _ (List.getElem_mem _))

theorem mem_matchCorrect (docs : List Submission) (s : Submission) :
    s ∈ matchCorrect docs ↔ s ∈ docs ∧ s.status = Status.correct := by
  simp [matchCorrect, List.mem_filter]

theorem mem_groupByNamePuzzle (docs : List Submission) (g : PuzzleSolve) :
    g ∈ groupByNamePuzzle docs ↔
      ∃ s ∈ docs, g = puzzleSolveOf docs (s.name, s.puzzleId) := by
  simp only [groupByNamePuzzle, List.mem_map, mem_distinct]
  constructor
  · rintro ⟨k, ⟨s, hs, rfl⟩, rfl⟩
    exact ⟨s, hs, rfl⟩
  · rintro ⟨s, hs, rfl⟩
    exact ⟨_, ⟨s, hs, rfl⟩, rfl⟩

theorem mem_groupByName (docs : List PuzzleSolve) (row : SolverRow) :
    row ∈ groupByName docs ↔ ∃ d ∈ docs, row = solverRowOf docs d.name := by
  simp only [groupByName, List.mem_map, mem_distinct]
  constructor
  · rintro ⟨k, ⟨d, hd, rfl⟩, rfl⟩
    exact ⟨d, hd, rfl⟩
  · rintro ⟨d, hd, rfl⟩
    exact ⟨_, ⟨d, hd, rfl⟩, rfl⟩

/-- Number of first-stage groups of a solver: the number of distinct puzzles
among the solver's matched documents. -/
theorem count_groups_of_name (docs : List Submission) (k : Str) :
    ((groupByNamePuzzle docs).filter fun d => decide (d.name = k)).length =
      ((docs.filter fun s => decide (s.name = k)).map fun s => s.puzzleId).toFinset.card := by
  have hfilter : ((groupByNamePuzzle docs).filter fun d => decide (d.name = k)) =
      ((firstOccurrences id (docs.map fun s => (s.name, s.puzzleId))).filter
        fun q => decide (q.1 = k)).map (puzzleSolveOf docs) := by
    simp only [groupByNamePuzzle, List.filter_map]
    rfl
  rw [hfilter, List.length_map]
  have hnd : (((firstOccurrences id (docs.map fun s => (s.name, s.puzzleId))).filter
      fun q => decide (q.1 = k)).map Prod.snd).Nodup := by
    refine List.Nodup.map_on ?_ ((nodup_distinct _).filter _)
    intro a ha b hb hab
    have ha1 := (List.mem_filter.1 ha).2
    have hb1 := (List.mem_filter.1 hb).2
    simp only [decide_eq_true_eq] at ha1 hb1
    exact Prod.ext (ha1.trans hb1.symm) hab
  rw [← List.length_map _ Prod.snd, ← List.toFinset_card_of_nodup hnd]
  congr 1
  ext p
  simp only [List.mem_toFinset, List.mem_map, List.mem_filter, mem_distinct,
    decide_eq_true_eq]
  constructor
  · rintro ⟨q, ⟨⟨s, hs, rfl⟩, hq⟩, rfl⟩
    exact ⟨s, ⟨hs, hq⟩, rfl⟩
  · rintro ⟨s, ⟨hs, hk⟩, rfl⟩
    exact ⟨(s.name, s.puzzleId), ⟨⟨s, hs, rfl⟩, hk⟩, rfl⟩

/-- Minimum over the first-stage groups of a solver: the minimum over the
solver's matched documents. -/
theorem min_groups_of_name (docs : List Submission) (k : Str)
    (hk : ∃ s ∈ docs, s.name = k) :
    minOf (((groupByNamePuzzle docs).filter fun d => decide (d.name = k)).map
        fun d => d.submittedAt) =
      minOf ((docs.filter fun s => decide (s.name = k)).map fun s => s.submittedAt) := by
  obtain ⟨s0, hs0, hs0k⟩ := hk
  have hM : ((docs.filter fun s => decide (s.name = k)).map fun s => s.submittedAt) ≠ [] := by
    intro h
    have : s0 ∈ docs.filter fun s => decide (s.name = k) :=
      List.mem_filter.2 ⟨hs0, by simpa using hs0k⟩
    rw [List.map_eq_nil_iff] at h
    rw [h] at this
    cases this
  have hL : (((groupByNamePuzzle docs).filter fun d => decide (d.name = k)).map
      fun d => d.submittedAt) ≠ [] := by
    intro h
    have : puzzleSolveOf docs (s0.name, s0.puzzleId) ∈
        (groupByNamePuzzle docs).filter fun d => decide (d.name = k) :=
      List.mem_filter.2 ⟨(mem_groupByNamePuzzle docs _).2 ⟨s0, hs0, rfl⟩, by
        simpa [puzzleSolveOf] using hs0k⟩
    rw [List.map_eq_nil_iff] at h
    rw [h] at this
    cases this
  apply Nat.le_antisymm
  · -- the overall earliest document lies in some group
    obtain ⟨s, hs, hst⟩ := List.mem_map.1 (minOf_mem _ hM)
    obtain ⟨hsd, hsk⟩ := List.mem_filter.1 hs
    simp only [decide_eq_true_eq] at hsk
    have hg : (puzzleSolveOf docs (s.name, s.puzzleId)).submittedAt ∈
        ((groupByNamePuzzle docs).filter fun d => decide (d.name = k)).map
          fun d => d.submittedAt :=
      List.mem_map.2 ⟨_, List.mem_filter.2 ⟨(mem_groupByNamePuzzle docs _).2 ⟨s, hsd, rfl⟩, by
        simpa [puzzleSolveOf] using hsk⟩, rfl⟩
    refine Nat.le_trans (minOf_le _ _ hg) ?_
    rw [← hst]
    apply minOf_le
    exact List.mem_map.2 ⟨s, List.mem_filter.2 ⟨hsd, by simp⟩, rfl⟩
  · -- the earliest group minimum is attained by a document of the solver
    obtain ⟨g, hg, hgt⟩ := List.mem_map.1 (minOf_mem _ hL)
    obtain ⟨hgG, hgk⟩ := List.mem_filter.1 hg
    simp only [decide_eq_true_eq] at hgk
    obtain ⟨s, hs, rfl⟩ := (mem_groupByNamePuzzle docs g).1 hgG
    have hne : ((docs.filter fun x => decide ((x.name, x.puzzleId) = (s.name, s.puzzleId))).map
        fun x => x.submittedAt) ≠ [] := by
      intro h
      have : s ∈ docs.filter fun x => decide ((x.name, x.puzzleId) = (s.name, s.puzzleId)) :=
        List.mem_filter.2 ⟨hs, by simp⟩
      rw [List.map_eq_nil_iff] at h
      rw [h] at this
      cases this
    obtain ⟨x, hx, hxt⟩ := List.mem_map.1 (minOf_mem _ hne)
    obtain ⟨hxd, hxk⟩ := List.mem_filter.1 hx
    simp only [decide_eq_true_eq, Prod.mk.injEq] at hxk
    rw [← hgt]
    show _ ≤ minOf _
    rw [← hxt]
    apply minOf_le
    refine List.mem_map.2 ⟨x, List.mem_filter.2 ⟨hxd, ?_⟩, rfl⟩
    have : s.name = k := by simpa [puzzleSolveOf] using hgk
    simp [hxk.1, this]

theorem filter_name_matchCorrect (docs : List Submission) (k : Str) :
    ((matchCorrect docs).filter fun s => decide (s.name = k)) =
      docs.filter fun s => decide (s.status = Status.correct) && decide (s.name = k) := by
  simp only [matchCorrect, List.filter_filter]
  apply List.filter_congr
  intro s _
  exact Bool.and_comm _ _

/-- What the two `$group` stages compute for a solver, in terms of the stored
submissions. -/
theorem row_of_groupByName (docs : List Submission) (row : SolverRow)
    (h : row ∈ groupByName (groupByNamePuzzle (matchCorrect docs))) :
    (∃ s ∈ docs, s.status = Status.correct ∧ s.name = row.name) ∧
      row.correctSubmissions = distinctPuzzlesSolved docs row.name ∧
      row.firstCorrect = firstCorrectOf docs row.name := by
  obtain ⟨d, hd, rfl⟩ := (mem_groupByName _ row).1 h
  obtain ⟨s, hs, rfl⟩ := (mem_groupByNamePuzzle _ d).1 hd
  obtain ⟨hsd, hsc⟩ := (mem_matchCorrect docs s).1 hs
  refine ⟨⟨s, hsd, hsc, rfl⟩, ?_, ?_⟩
  · simp only [solverRowOf, sum_ones, puzzleSolveOf, count_groups_of_name,
      filter_name_matchCorrect, distinctPuzzlesSolved]
  · have := min_groups_of_name (matchCorrect docs) s.name ⟨s, hs, rfl⟩
    rw [filter_name_matchCorrect] at this
    simpa only [solverRowOf, puzzleSolveOf, firstCorrectOf] using this

theorem mem_sortedRows (docs : List Submission) (row : SolverRow) :
    row ∈ sortedRows docs ↔ row ∈ groupByName (groupByNamePuzzle (matchCorrect docs)) :=
  (List.perm_insertionSort _ _).mem_iff

theorem mem_aggregate (docs : List Submission) (row : SolverRow) (h : row ∈ aggregate docs) :
    row ∈ groupByName (groupByNamePuzzle (matchCorrect docs)) :=
  (mem_sortedRows docs row).1 (List.mem_of_mem_take h)

theorem rankBefore_total (a b : SolverRow) : rankBefore a b ∨ rankBefore b a := by
  unfold rankBefore
  omega

theorem rankBefore_trans (a b c : SolverRow) (h1 : rankBefore a b) (h2 : rankBefore b c) :
    rankBefore a c := by
  unfold rankBefore at *
  omega

theorem sortedRows_sorted (docs : List Submission) :
    (sortedRows docs).Pairwise rankBefore := by
  haveI : IsTotal SolverRow rankBefore := ⟨rankBefore_total⟩
  haveI : IsTrans SolverRow rankBefore := ⟨rankBefore_trans⟩
  exact List.sorted_insertionSort _ _

theorem aggregate_sorted (docs : List Submission) :
    (aggregate docs).Pairwise rankBefore :=
  (sortedRows_sorted docs).sublist (List.take_sublist _ _)

/-! ## Storage order and the aggregation pipeline -/

theorem minOf_perm (l l' : List Nat) (h : l.Perm l') : minOf l = minOf l' := by
  cases l with
  | nil => rw [h.nil_eq]
  | cons a as =>
    have hl' : l' ≠ [] := by
      intro e
      subst e
      exact absurd h.length_eq (by simp)
    exact minOf_eq_of_same_members _ _ (List.cons_ne_nil _ _) hl' fun x => h.mem_iff

theorem distinctPuzzlesSolved_perm (docs docs' : List Submission) (h : docs.Perm docs')
    (k : Str) : distinctPuzzlesSolved docs k = distinctPuzzlesSolved docs' k := by
  unfold distinctPuzzlesSolved
  rw [List.toFinset_eq_of_perm _ _ ((h.filter _).map _)]

theorem firstCorrectOf_perm (docs docs' : List Submission) (h : docs.Perm docs')
    (k : Str) : firstCorrectOf docs k = firstCorrectOf docs' k :=
  minOf_perm _ _ ((h.filter _).map _)

theorem mem_solverNames (docs : List Submission) (k : Str) :
    k ∈ firstOccurrences id ((groupByNamePuzzle (matchCorrect docs)).map fun d => d.name) ↔
      ∃ s ∈ docs, s.status = Status.correct ∧ s.name = k := by
  rw [mem_distinct, List.mem_map]
  constructor
  · rintro ⟨d, hd, rfl⟩
    obtain ⟨s, hs, rfl⟩ := (mem_groupByNamePuzzle _ d).1 hd
    obtain ⟨h1, h2⟩ := (mem_matchCorrect docs s).1 hs
    exact ⟨s, h1, h2, rfl⟩
  · rintro ⟨s, hs, hc, rfl⟩
    exact ⟨_, (mem_groupByNamePuzzle _ _).2 ⟨s, (mem_matchCorrect docs s).2 ⟨hs, hc⟩, rfl⟩, rfl⟩

theorem rowCore_groupByName (docs : List Submission) :
    (groupByName (groupByNamePuzzle (matchCorrect docs))).map rowCore =
      (firstOccurrences id ((groupByNamePuzzle (matchCorrect docs)).map fun d => d.name)).map
        fun k => (k, distinctPuzzlesSolved docs k, firstCorrectOf docs k) := by
  rw [groupByName, List.map_map]
  apply List.map_congr_left
  intro k hk
  have hrow : solverRowOf (groupByNamePuzzle (matchCorrect docs)) k ∈
      groupByName (groupByNamePuzzle (matchCorrect docs)) := List.mem_map.2 ⟨k, hk, rfl⟩
  obtain ⟨_, h1, h2⟩ := row_of_groupByName docs _ hrow
  simp only [Function.comp, rowCore, h1, h2]
  rfl

theorem rowCore_groupByName_perm (docs docs' : List Submission) (h : docs.Perm docs') :
    ((groupByName (groupByNamePuzzle (matchCorrect docs))).map rowCore).Perm
      ((groupByName (groupByNamePuzzle (matchCorrect docs'))).map rowCore) := by
  rw [rowCore_groupByName, rowCore_groupByName]
  have hnames : (firstOccurrences id
      ((groupByNamePuzzle (matchCorrect docs)).map fun d => d.name)).Perm
      (firstOccurrences id ((groupByNamePuzzle (matchCorrect docs')).map fun d => d.name)) := by
    refine (List.perm_ext_iff_of_nodup (nodup_distinct _) (nodup_distinct _)).2 ?_
    intro k
    rw [mem_solverNames, mem_solverNames]
    constructor
    · rintro ⟨s, hs, hc⟩
      exact ⟨s, h.mem_iff.1 hs, hc⟩
    · rintro ⟨s, hs, hc⟩
      exact ⟨s, h.mem_iff.2 hs, hc⟩
  have hfun : (fun k => (k, distinctPuzzlesSolved docs k, firstCorrectOf docs k)) =
      fun k => (k, distinctPuzzlesSolved docs' k, firstCorrectOf docs' k) := by
    funext k
    rw [distinctPuzzlesSolved_perm docs docs' h, firstCorrectOf_perm docs docs' h]
  rw [hfun]
  exact hnames.map _

theorem formatFrom_core_congr (rows : List SolverRow) :
    ∀ (rows' : List SolverRow) (index : Nat), rows.map rowCore = rows'.map rowCore →
      rankingOf (formatFrom index rows) = rankingOf (formatFrom index rows') := by
  induction rows with
  | nil =>
    intro rows' index h
    cases rows' with
    | nil => rfl
    | cons r rs => cases h
  | cons a as ih =>
    intro rows' index h
    cases rows' with
    | nil => cases h
    | cons r rs =>
      simp only [List.map_cons, List.cons.injEq, rowCore, Prod.mk.injEq] at h
      have ih' := ih rs (index + 1) h.2
      simp only [rankingOf] at ih' ⊢
      simp only [formatFrom, List.map_cons, ih', h.1.1, h.1.2.1]

/-! ## Lemmas on submission intake -/

theorem newSubmission_isSome_iff (lower : Str → Str) (body : SubmitBody) (stamp newId : Nat) :
    (newSubmission lower body stamp newId).isSome = true ↔
      (∃ puzzleId, body.puzzleId = IdParam.objectId puzzleId) ∧
        ∃ name answer, body.name = some name ∧ body.answer = some answer ∧
          trim name ≠ [] ∧ answer ≠ [] := by
  unfold newSubmission
  cases hp : body.puzzleId with
  | malformed raw => simp
  | absent => simp
  | objectId puzzleId =>
    cases hn : body.name with
    | none => simp
    | some name =>
      cases ha : body.answer with
      | none => simp
      | some answer =>
        by_cases h : trim name = [] ∨ answer = []
        · simp only [h, if_true, Option.isSome_none, Bool.false_eq_true, false_iff]
          rintro ⟨_, n, a, hn', ha', h1, h2⟩
          injection hn' with hn'
          injection ha' with ha'
          subst hn' ha'
          rcases h with h | h
          · exact h1 h
          · exact h2 h
        · simp only [h, if_false, Option.isSome_some, true_iff]
          exact ⟨⟨puzzleId, rfl⟩, name, answer, rfl, rfl, fun e => h (Or.inl e),
            fun e => h (Or.inr e)⟩

theorem newSubmission_fields (lower : Str → Str) (body : SubmitBody) (stamp newId : Nat)
    (sub : Submission) (h : newSubmission lower body stamp newId = some sub) :
    sub.status = Status.pending ∧ sub.id = newId ∧
      body.puzzleId = IdParam.objectId sub.puzzleId ∧ sub.submittedAt = stamp := by
  unfold newSubmission at h
  split at h
  · rename_i hp _ _
    split at h
    · cases h
    · injection h with h
      subst h
      exact ⟨rfl, rfl, hp, rfl⟩
  · cases h

theorem newSubmission_ignores_status (lower : Str → Str) (body : SubmitBody)
    (stamp newId : Nat) (x : Option Str) :
    newSubmission lower { body with status := x } stamp newId =
      newSubmission lower body stamp newId := rfl

/-! ## Frame lemmas of the handlers -/

theorem submit_sessions (lower : Str → Str) (st : State) (body : SubmitBody)
    (now stamp newId : Nat) : (submit lower st body now stamp newId).1.sessions = st.sessions := by
  unfold submit
  repeat' split
  all_goals rfl

theorem updateSubmissionStatus_sessions (cfg : Config) (st : State) (auth : Option Credential)
    (now id : Nat) (status : Option Str) :
    (updateSubmissionStatus cfg st auth now id status).1.sessions = st.sessions := by
  unfold updateSubmissionStatus
  repeat' split
  all_goals rfl

theorem deleteSubmission_sessions (cfg : Config) (st : State) (auth : Option Credential)
    (now id : Nat) : (deleteSubmission cfg st auth now id).1.sessions = st.sessions := by
  unfold deleteSubmission
  repeat' split
  all_goals rfl

theorem createPuzzle_sessions (env : PuzzleEnv) (cfg : Config) (st : State)
    (auth : Option Credential) (now : Nat) (body : PuzzleBody) (uploads : Uploads) (newId : Nat) :
    (createPuzzle env cfg st auth now body uploads newId).1.sessions = st.sessions := by
  unfold createPuzzle
  repeat' split
  all_goals rfl

theorem updatePuzzle_sessions (env : PuzzleEnv) (cfg : Config) (st : State)
    (auth : Option Credential) (now id : Nat) (body : PuzzleBody) :
    (updatePuzzle env cfg st auth now id body).1.sessions = st.sessions := by
  unfold updatePuzzle
  repeat' split
  all_goals rfl

theorem deletePuzzle_sessions (unlinkThrows : Str → Bool) (cfg : Config) (st : State)
    (auth : Option Credential) (now id : Nat) :
    (deletePuzzle unlinkThrows cfg st auth now id).1.sessions = st.sessions := by
  unfold deletePuzzle
  repeat' split
  all_goals rfl

theorem logout_sessions_sublist (cfg : Config) (st : State) (auth : Option Credential)
    (now : Nat) : (logout cfg st auth now).1.sessions.Sublist st.sessions := by
  unfold logout
  split
  · exact List.Sublist.refl _
  · exact List.eraseP_sublist _

/-- The sessions after a login: unchanged, or one new record whose identifier
was not in use. -/
theorem login_sessions (cfg : Config) (st : State) (req : LoginRequest) (sessionId : Str)
    (now : Nat) :
    (login cfg st req sessionId now).1.sessions = st.sessions ∨
      (sessionId ∉ st.sessions.map (fun s => s.sessionId) ∧
        (login cfg st req sessionId now).1.sessions =
          st.sessions ++ [sessionRecord req sessionId now]) := by
  unfold login
  split
  · exact Or.inl rfl
  · split
    · exact Or.inl rfl
    · rename_i h
      split
      · exact Or.inr ⟨fun e => h (Or.inr e), rfl⟩
      · exact Or.inr ⟨fun e => h (Or.inr e), rfl⟩

theorem step_uniqueSessions (env : Env) (st : State) (op : Op) (h : UniqueSessions st) :
    UniqueSessions (step env st op) := by
  unfold UniqueSessions at *
  cases op with
  | submit body now stamp newId => simpa only [step, submit_sessions] using h
  | login req sessionId now =>
    rcases login_sessions env.cfg st req sessionId now with h1 | ⟨h1, h2⟩
    · simpa only [step, h1] using h
    · simp only [step, h2, List.map_append, List.map_cons, List.map_nil]
      refine List.Nodup.append h (List.nodup_singleton _) ?_
      intro x hx hx'
      rw [List.mem_singleton] at hx'
      subst hx'
      exact h1 hx
  | logout auth now =>
    exact h.sublist ((logout_sessions_sublist env.cfg st auth now).map _)
  | updateSubmission auth now id status =>
    simpa only [step, updateSubmissionStatus_sessions] using h
  | deleteSubmission auth now id => simpa only [step, deleteSubmission_sessions] using h
  | createPuzzle auth now body uploads newId =>
    simpa only [step, createPuzzle_sessions] using h
  | updatePuzzle auth now id body => simpa only [step, updatePuzzle_sessions] using h
  | deletePuzzle auth now id => simpa only [step, deletePuzzle_sessions] using h

theorem run_uniqueSessions (env : Env) (ops : List Op) :
    ∀ st : State, UniqueSessions st → UniqueSessions (run env st ops) := by
  induction ops with
  | nil => intro st h; exact h
  | cons op ops ih => intro st h; exact ih _ (step_uniqueSessions env st op h)

theorem reachable_uniqueSessions (env : Env) (st : State) (h : Reachable env st) :
    UniqueSessions st := by
  obtain ⟨ops, rfl⟩ := h
  exact run_uniqueSessions env ops emptyState List.nodup_nil

theorem reachable_run (env : Env) (st : State) (h : Reachable env st) (ops : List Op) :
    Reachable env (run env st ops) := by
  obtain ⟨ops0, rfl⟩ := h
  exact ⟨ops0 ++ ops, by simp [run, List.foldl_append]⟩

/-- A request that is not a login drawing `sid` does not create a session with
that identifier. -/
theorem step_no_session (env : Env) (st : State) (op : Op) (sid : Str)
    (hop : op.drawsSession sid = false) (h : ∀ s ∈ st.sessions, s.sessionId ≠ sid) :
    ∀ s ∈ (step env st op).sessions, s.sessionId ≠ sid := by
  cases op with
  | submit body now stamp newId => simpa only [step, submit_sessions] using h
  | login req sessionId now =>
    rcases login_sessions env.cfg st req sessionId now with h1 | ⟨_, h2⟩
    · simpa only [step, h1] using h
    · simp only [step, h2]
      intro s hs
      rcases List.mem_append.1 hs with hs | hs
      · exact h s hs
      · rw [List.mem_singleton] at hs
        subst hs
        simpa [Op.drawsSession, sessionRecord] using hop
  | logout auth now =>
    exact fun s hs => h s ((logout_sessions_sublist env.cfg st auth now).subset hs)
  | updateSubmission auth now id status =>
    simpa only [step, updateSubmissionStatus_sessions] using h
  | deleteSubmission auth now id => simpa only [step, deleteSubmission_sessions] using h
  | createPuzzle auth now body uploads newId =>
    simpa only [step, createPuzzle_sessions] using h
  | updatePuzzle auth now id body => simpa only [step, updatePuzzle_sessions] using h
  | deletePuzzle auth now id => simpa only [step, deletePuzzle_sessions] using h

theorem run_no_session (env : Env) (sid : Str) (ops : List Op)
    (hops : ∀ op ∈ ops, op.drawsSession sid = false) :
    ∀ st : State, (∀ s ∈ st.sessions, s.sessionId ≠ sid) →
      ∀ s ∈ (run env st ops).sessions, s.sessionId ≠ sid := by
  induction ops with
  | nil => intro st h; exact h
  | cons op ops ih =>
    intro st h
    exact ih (fun o ho => hops o (List.mem_cons_of_mem _ ho)) _
      (step_no_session env st op sid (hops op (List.mem_cons_self _ _)) h)

/-! ## Lemmas on admin sessions -/

theorem authenticateAdmin_ok (cfg : Config) (st : State) (key : Str) (claims : AdminClaims)
    (now : Nat) (hkey : cfg.jwtSecret = some key) (hexp : now / 1000 < claims.exp)
    (hsess : ∃ s ∈ st.sessions, s.sessionId = claims.sessionId) :
    authenticateAdmin cfg st (some (Credential.jwt key claims)) now = Except.ok claims := by
  obtain ⟨s, hs, hsid⟩ := hsess
  have hfind : (st.sessions.find? fun s => decide (s.sessionId = claims.sessionId)).isSome := by
    rw [List.find?_isSome]
    exact ⟨s, hs, by simpa using hsid⟩
  obtain ⟨x, hx⟩ := Option.isSome_iff_exists.1 hfind
  simp only [authenticateAdmin, jwtVerify, hkey, hexp, and_self, if_true, hx]

theorem authenticateAdmin_no_session (cfg : Config) (st : State) (key : Str)
    (claims : AdminClaims) (now : Nat)
    (hsess : ∀ s ∈ st.sessions, s.sessionId ≠ claims.sessionId) :
    authenticateAdmin cfg st (some (Credential.jwt key claims)) now =
      Except.error Failure.unauthorized := by
  have hfind : (st.sessions.find? fun s => decide (s.sessionId = claims.sessionId)) = none := by
    rw [List.find?_eq_none]
    intro s hs
    simpa using hsess s hs
  unfold authenticateAdmin
  simp only
  cases h : jwtVerify cfg.jwtSecret (Credential.jwt key claims) now with
  | none => rfl
  | some decoded =>
    have hd : decoded = claims := by
      unfold jwtVerify at h
      split at h
      · split at h
        · rename_i heq _
          injection heq with h1 h2
          injection h with h
          rw [← h, h2]
        · cases h
      · cases h
    subst hd
    simp only [hfind]

theorem authenticateAdmin_ok_elim (cfg : Config) (st : State) (auth : Option Credential)
    (now : Nat) (claims : AdminClaims)
    (h : authenticateAdmin cfg st auth now = Except.ok claims) :
    ∃ key, cfg.jwtSecret = some key ∧ auth = some (Credential.jwt key claims) ∧
      now / 1000 < claims.exp ∧ ∃ s ∈ st.sessions, s.sessionId = claims.sessionId := by
  unfold authenticateAdmin at h
  split at h
  · cases h
  · rename_i token
    split at h
    · cases h
    · rename_i decoded hv
      split at h
      · cases h
      · rename_i s hs
        injection h with h
        subst h
        have hmem := List.mem_of_find?_eq_some hs
        have hp := List.find?_some hs
        simp only [decide_eq_true_eq] at hp
        cases hsec : cfg.jwtSecret with
        | none => simp [jwtVerify, hsec] at hv
        | some key =>
          cases token with
          | malformed raw => simp [jwtVerify, hsec] at hv
          | jwt signedWith claims =>
            simp only [jwtVerify, hsec] at hv
            split at hv
            · rename_i hc
              injection hv with hv
              subst hv
              exact ⟨key, rfl, by rw [hc.1], hc.2, s, hmem, hp⟩
            · cases hv

theorem login_token_elim (cfg : Config) (st st1 : State) (req : LoginRequest) (sid : Str)
    (now : Nat) (tok : Credential)
    (h : login cfg st req sid now = (st1, LoginResponse.token tok)) :
    ∃ key, cfg.jwtSecret = some key ∧
      tok = Credential.jwt key
        { email := cfg.adminEmail, sessionId := sid, exp := now / 1000 + 86400 } ∧
      st1 = { st with sessions := st.sessions ++ [sessionRecord req sid now] } ∧
      sid ∉ st.sessions.map (fun s => s.sessionId) := by
  unfold login at h
  split at h
  · cases h
  · split at h
    · cases h
    · rename_i hnew
      split at h
      · cases h
      · rename_i key hkey
        injection h with h1 h2
        injection h2 with h2
        exact ⟨key, hkey, h2.symm, h1.symm, fun e => hnew (Or.inr e)⟩

theorem eraseP_session_eq_filter (sid : Str) (l : List AdminSession)
    (h : (l.map fun s => s.sessionId).Nodup) :
    (l.eraseP fun s => decide (s.sessionId = sid)) =
      l.filter fun s => decide (s.sessionId ≠ sid) := by
  induction l with
  | nil => rfl
  | cons a as ih =>
    rw [List.map_cons, List.nodup_cons] at h
    by_cases ha : a.sessionId = sid
    · have hrest : (as.filter fun s => decide (s.sessionId ≠ sid)) = as := by
        rw [List.filter_eq_self]
        intro s hs
        have : s.sessionId ≠ sid := by
          intro e
          exact h.1 (List.mem_map.2 ⟨s, hs, e.trans ha.symm⟩)
        simpa using this
      rw [List.eraseP_cons_of_pos (by simpa using ha),
        List.filter_cons_of_neg (by simpa using ha), hrest]
    · rw [List.eraseP_cons_of_neg (by simpa using ha),
        List.filter_cons_of_pos (by simpa using ha), ih h.2]

theorem logout_ok_elim (cfg : Config) (st st3 : State) (auth : Option Credential) (now : Nat)
    (h : logout cfg st auth now = (st3, Except.ok ())) :
    ∃ claims, authenticateAdmin cfg st auth now = Except.ok claims ∧
      st3 = { st with sessions :=
        st.sessions.eraseP fun s => decide (s.sessionId = claims.sessionId) } := by
  unfold logout at h
  split at h
  · injection h with _ h2
    cases h2
  · rename_i claims hc
    injection h with h1 _
    exact ⟨claims, hc, h1.symm⟩

/-! ## Lemmas on the status of stored submissions -/

theorem parseStatus_eq_none_iff (status : Option Str) :
    parseStatus status = none ↔
      status ∉ [some "pending".toList, some "correct".toList, some "incorrect".toList] := by
  unfold parseStatus
  by_cases h1 : status = some "pending".toList
  · rw [if_pos h1]
    exact ⟨fun h => (by cases h), fun h => absurd (by rw [h1]; exact List.mem_cons_self _ _) h⟩
  · rw [if_neg h1]
    by_cases h2 : status = some "correct".toList
    · rw [if_pos h2]
      exact ⟨fun h => (by cases h), fun h => absurd (by
        rw [h2]; exact List.mem_cons_of_mem _ (List.mem_cons_self _ _)) h⟩
    · rw [if_neg h2]
      by_cases h3 : status = some "incorrect".toList
      · rw [if_pos h3]
        exact ⟨fun h => (by cases h), fun h => absurd (by
          rw [h3]
          exact List.mem_cons_of_mem _ (List.mem_cons_of_mem _ (List.mem_cons_self _ _))) h⟩
      · rw [if_neg h3]
        refine ⟨fun _ hmem => ?_, fun _ => rfl⟩
        rcases List.mem_cons.1 hmem with h | hmem
        · exact h1 h
        · rcases List.mem_cons.1 hmem with h | hmem
          · exact h2 h
          · rcases List.mem_cons.1 hmem with h | hmem
            · exact h3 h
            · cases hmem

theorem mem_setStatusById (id : Nat) (v : Status) (l : List Submission) :
    ∀ s' ∈ setStatusById id v l,
      s' ∈ l ∨ ∃ s ∈ l, s.id = id ∧ s' = { s with status := v } := by
  induction l with
  | nil => intro s' h; cases h
  | cons a as ih =>
    intro s' h
    unfold setStatusById at h
    split at h
    · rename_i ha
      rcases List.mem_cons.1 h with rfl | h
      · exact Or.inr ⟨a, List.mem_cons_self _ _, ha, rfl⟩
      · exact Or.inl (List.mem_cons_of_mem _ h)
    · rcases List.mem_cons.1 h with rfl | h
      · exact Or.inl (List.mem_cons_self _ _)
      · rcases ih s' h with h | ⟨s, hs, hid, rfl⟩
        · exact Or.inl (List.mem_cons_of_mem _ h)
        · exact Or.inr ⟨s, List.mem_cons_of_mem _ hs, hid, rfl⟩

theorem setStatusById_found (id : Nat) (v : Status) (l : List Submission) (s : Submission)
    (h : (l.find? fun x => decide (x.id = id)) = some s) :
    { s with status := v } ∈ setStatusById id v l := by
  induction l with
  | nil => cases h
  | cons a as ih =>
    unfold setStatusById
    by_cases ha : a.id = id
    · rw [List.find?_cons_of_pos _ (by simpa using ha)] at h
      injection h with h
      subst h
      simp only [ha, if_true]
      exact List.mem_cons_self _ _
    · rw [List.find?_cons_of_neg _ (by simpa using ha)] at h
      simp only [ha, if_false]
      exact List.mem_cons_of_mem _ (ih h)

theorem submit_submissions (lower : Str → Str) (st : State) (body : SubmitBody)
    (now stamp newId : Nat) :
    (submit lower st body now stamp newId).1.submissions = st.submissions ∨
      ∃ sub, sub.status = Status.pending ∧
        (submit lower st body now stamp newId).1.submissions = st.submissions ++ [sub] := by
  unfold submit
  split
  · exact Or.inl rfl
  · exact Or.inl rfl
  · split
    · exact Or.inl rfl
    · split
      · exact Or.inl rfl
      · split
        · exact Or.inl rfl
        · rename_i sub hsub
          exact Or.inr ⟨sub, (newSubmission_fields _ _ _ _ sub hsub).1, rfl⟩

theorem login_submissions (cfg : Config) (st : State) (req : LoginRequest) (sessionId : Str)
    (now : Nat) : (login cfg st req sessionId now).1.submissions = st.submissions := by
  unfold login
  repeat' split
  all_goals rfl

theorem logout_submissions (cfg : Config) (st : State) (auth : Option Credential) (now : Nat) :
    (logout cfg st auth now).1.submissions = st.submissions := by
  unfold logout
  repeat' split
  all_goals rfl

theorem createPuzzle_submissions (env : PuzzleEnv) (cfg : Config) (st : State)
    (auth : Option Credential) (now : Nat) (body : PuzzleBody) (uploads : Uploads) (newId : Nat) :
    (createPuzzle env cfg st auth now body uploads newId).1.submissions = st.submissions := by
  unfold createPuzzle
  repeat' split
  all_goals rfl

theorem updatePuzzle_submissions (env : PuzzleEnv) (cfg : Config) (st : State)
    (auth : Option Credential) (now id : Nat) (body : PuzzleBody) :
    (updatePuzzle env cfg st auth now id body).1.submissions = st.submissions := by
  unfold updatePuzzle
  repeat' split
  all_goals rfl

theorem deleteSubmission_submissions (cfg : Config) (st : State) (auth : Option Credential)
    (now id : Nat) :
    (deleteSubmission cfg st auth now id).1.submissions.Sublist st.submissions := by
  unfold deleteSubmission
  repeat' split
  all_goals first | exact List.Sublist.refl _ | exact List.eraseP_sublist _

theorem deletePuzzle_submissions (unlinkThrows : Str → Bool) (cfg : Config) (st : State)
    (auth : Option Credential) (now id : Nat) :
    (deletePuzzle unlinkThrows cfg st auth now id).1.submissions.Sublist st.submissions := by
  unfold deletePuzzle
  repeat' split
  all_goals first | exact List.Sublist.refl _ | exact List.filter_sublist _

theorem updateSubmissionStatus_cases (cfg : Config) (st : State) (auth : Option Credential)
    (now id : Nat) (status : Option Str) :
    (updateSubmissionStatus cfg st auth now id status).1 = st ∨
      ∃ v, parseStatus status = some v ∧
        (updateSubmissionStatus cfg st auth now id status).1 =
          { st with submissions := setStatusById id v st.submissions } := by
  unfold updateSubmissionStatus
  split
  · exact Or.inl rfl
  · split
    · exact Or.inl rfl
    · rename_i v hv
      split
      · exact Or.inl rfl
      · exact Or.inr ⟨v, hv, rfl⟩

/-! ## Lemmas on the references from submissions to puzzles -/

theorem authenticateAdmin_error (cfg : Config) (st : State) (auth : Option Credential)
    (now : Nat) (f : Failure) (h : authenticateAdmin cfg st auth now = Except.error f) :
    f = Failure.unauthorized := by
  unfold authenticateAdmin at h
  repeat' split at h
  all_goals first | (injection h with h; exact h.symm) | cases h

theorem references_iff (st : State) :
    References st ↔ ∀ s ∈ st.submissions, s.puzzleId ∈ st.puzzles.map fun p => p.id := by
  unfold References
  simp only [List.mem_map]

theorem references_of_same (st st' : State) (hp : st'.puzzles = st.puzzles)
    (hs : st'.submissions.Sublist st.submissions) (h : References st) : References st' := by
  intro s hs'
  rw [hp]
  exact h s (hs.subset hs')

theorem submit_puzzles (lower : Str → Str) (st : State) (body : SubmitBody)
    (now stamp newId : Nat) : (submit lower st body now stamp newId).1.puzzles = st.puzzles := by
  unfold submit
  repeat' split
  all_goals rfl

theorem login_puzzles (cfg : Config) (st : State) (req : LoginRequest) (sessionId : Str)
    (now : Nat) : (login cfg st req sessionId now).1.puzzles = st.puzzles := by
  unfold login
  repeat' split
  all_goals rfl

theorem logout_puzzles (cfg : Config) (st : State) (auth : Option Credential) (now : Nat) :
    (logout cfg st auth now).1.puzzles = st.puzzles := by
  unfold logout
  repeat' split
  all_goals rfl

theorem updateSubmissionStatus_puzzles (cfg : Config) (st : State) (auth : Option Credential)
    (now id : Nat) (status : Option Str) :
    (updateSubmissionStatus cfg st auth now id status).1.puzzles = st.puzzles := by
  unfold updateSubmissionStatus
  repeat' split
  all_goals rfl

theorem deleteSubmission_puzzles (cfg : Config) (st : State) (auth : Option Credential)
    (now id : Nat) : (deleteSubmission cfg st auth now id).1.puzzles = st.puzzles := by
  unfold deleteSubmission
  repeat' split
  all_goals rfl

/-- A recorded submission belongs to a puzzle that is stored. -/
theorem submit_references (lower : Str → Str) (st : State) (body : SubmitBody)
    (now stamp newId : Nat) (h : References st) :
    References (submit lower st body now stamp newId).1 := by
  unfold submit
  split
  · exact h
  · exact h
  · rename_i puzzleId hid
    split
    · exact h
    · rename_i puzzle hp
      split
      · exact h
      · split
        · exact h
        · rename_i sub hsub
          intro s hs
          rcases List.mem_append.1 hs with hs | hs
          · exact h s hs
          · rw [List.mem_singleton] at hs
            subst hs
            refine ⟨puzzle, List.mem_of_find?_eq_some hp, ?_⟩
            have hfound := List.find?_some hp
            simp only [decide_eq_true_eq] at hfound
            have hcast := (newSubmission_fields _ _ _ _ s hsub).2.2.1
            rw [hid] at hcast
            injection hcast with hcast
            rw [hfound, hcast]

theorem updateSubmissionStatus_references (cfg : Config) (st : State)
    (auth : Option Credential) (now id : Nat) (status : Option Str) (h : References st) :
    References (updateSubmissionStatus cfg st auth now id status).1 := by
  rcases updateSubmissionStatus_cases cfg st auth now id status with h1 | ⟨v, _, h1⟩
  · rw [h1]; exact h
  · rw [h1]
    intro s' hs'
    rcases mem_setStatusById id v _ s' hs' with hs | ⟨s, hs, _, rfl⟩
    · exact h s' hs
    · exact h s hs

theorem createPuzzle_puzzles (env : PuzzleEnv) (cfg : Config) (st : State)
    (auth : Option Credential) (now : Nat) (body : PuzzleBody) (uploads : Uploads) (newId : Nat) :
    (createPuzzle env cfg st auth now body uploads newId).1.puzzles = st.puzzles ∨
      ∃ p, p.id = newId ∧ newId ∉ st.puzzles.map (fun q => q.id) ∧
        (createPuzzle env cfg st auth now body uploads newId).1.puzzles = st.puzzles ++ [p] := by
  unfold createPuzzle
  split
  · exact Or.inl rfl
  · split
    · exact Or.inl rfl
    · rename_i p hp
      refine Or.inr ⟨p, ?_, ?_, rfl⟩
      · unfold newPuzzle at hp
        split at hp
        · split at hp
          · cases hp
          · injection hp with hp
            rw [← hp]
        · cases hp
      · unfold newPuzzle at hp
        split at hp
        · split at hp
          · cases hp
          · rename_i hcond
            intro hmem
            exact hcond (by
              repeat first | exact hmem | apply Or.inr)
        · cases hp

theorem map_id_updatePuzzleById (id : Nat) (f : Puzzle → Puzzle) (hf : ∀ p, (f p).id = p.id)
    (l : List Puzzle) :
    (updatePuzzleById id f l).map (fun p => p.id) = l.map fun p => p.id := by
  induction l with
  | nil => rfl
  | cons a as ih =>
    unfold updatePuzzleById
    split
    · simp only [List.map_cons, hf]
    · simp only [List.map_cons, ih]

theorem applyUpdate_id (env : PuzzleEnv) (st : State) (body : PuzzleBody) (now : Nat)
    (deadline : Option Nat) (p : Puzzle) : (applyUpdate env st body now deadline p).id = p.id :=
  rfl

theorem updatePuzzle_puzzle_ids (env : PuzzleEnv) (cfg : Config) (st : State)
    (auth : Option Credential) (now id : Nat) (body : PuzzleBody) :
    (updatePuzzle env cfg st auth now id body).1.puzzles.map (fun p => p.id) =
      st.puzzles.map fun p => p.id := by
  unfold updatePuzzle
  repeat' split
  all_goals first
    | rfl
    | exact map_id_updatePuzzleById _ _ (applyUpdate_id _ _ _ _ _) _

/-! ## Lemmas on the deletion of a puzzle -/

theorem unlinkIfExists_sublist (unlinkThrows : Str → Bool) (files files' : List Str)
    (path : Option Str) (h : unlinkIfExists unlinkThrows files path = some files') :
    files'.Sublist files := by
  unfold unlinkIfExists at h
  repeat' split at h
  all_goals first
    | (injection h with h; subst h; first | exact List.Sublist.refl _ | exact List.filter_sublist _)
    | cases h

theorem unlinkIfExists_removes (unlinkThrows : Str → Bool) (files files' : List Str) (f : Str)
    (hf : f ≠ []) (h : unlinkIfExists unlinkThrows files (some f) = some files') :
    f ∉ files' := by
  unfold unlinkIfExists at h
  simp only [hf, if_false] at h
  split at h
  · split at h
    · cases h
    · injection h with h
      subst h
      intro hmem
      simpa using (List.mem_filter.1 hmem).2
  · rename_i hnot
    injection h with h
    subst h
    exact hnot

theorem unlinkIfExists_total (unlinkThrows : Str → Bool) (hfs : ∀ f, unlinkThrows f = false)
    (files : List Str) (path : Option Str) :
    ∃ files', unlinkIfExists unlinkThrows files path = some files' := by
  unfold unlinkIfExists
  repeat' split
  all_goals first
    | exact ⟨_, rfl⟩
    | (rename_i h; rw [hfs] at h; cases h)

/-- The outcomes of `DELETE /puzzles/:id`: an answer other than success or the
500 answer changes nothing; the 500 answer comes with the puzzle record removed
and the submissions kept; success comes with the record, the submissions of the
puzzle and its two files removed. -/
theorem deletePuzzle_cases (unlinkThrows : Str → Bool) (cfg : Config) (st : State)
    (auth : Option Credential) (now id : Nat) :
    ((deletePuzzle unlinkThrows cfg st auth now id).1 = st ∧
        (deletePuzzle unlinkThrows cfg st auth now id).2 ≠ Except.ok () ∧
        (deletePuzzle unlinkThrows cfg st auth now id).2 ≠ Except.error Failure.internal) ∨
      ((deletePuzzle unlinkThrows cfg st auth now id).2 = Except.error Failure.internal ∧
        (deletePuzzle unlinkThrows cfg st auth now id).1.puzzles =
          (st.puzzles.eraseP fun p => decide (p.id = id)) ∧
        (deletePuzzle unlinkThrows cfg st auth now id).1.submissions = st.submissions) ∨
      ((deletePuzzle unlinkThrows cfg st auth now id).2 = Except.ok () ∧
        (deletePuzzle unlinkThrows cfg st auth now id).1.puzzles =
          (st.puzzles.eraseP fun p => decide (p.id = id)) ∧
        (deletePuzzle unlinkThrows cfg st auth now id).1.submissions =
          (st.submissions.filter fun s => decide (s.puzzleId ≠ id)) ∧
        ∃ puzzle files1, findPuzzleById st id = some puzzle ∧
          unlinkIfExists unlinkThrows st.files puzzle.filePath = some files1 ∧
          unlinkIfExists unlinkThrows files1 puzzle.solutionFilePath =
            some (deletePuzzle unlinkThrows cfg st auth now id).1.files) := by
  unfold deletePuzzle
  split
  · rename_i f hf
    have := authenticateAdmin_error _ _ _ _ f hf
    subst this
    exact Or.inl ⟨rfl, by simp, by simp⟩
  · split
    · exact Or.inl ⟨rfl, by simp, by simp⟩
    · rename_i puzzle hp
      split
      · exact Or.inr (Or.inl ⟨rfl, rfl, rfl⟩)
      · rename_i files1 h1
        split
        · exact Or.inr (Or.inl ⟨rfl, rfl, rfl⟩)
        · rename_i files2 h2
          exact Or.inr (Or.inr ⟨rfl, rfl, rfl, puzzle, files1, hp, h1, h2⟩)

theorem deletePuzzle_never_internal (unlinkThrows : Str → Bool)
    (hfs : ∀ f, unlinkThrows f = false) (cfg : Config) (st : State)
    (auth : Option Credential) (now id : Nat) :
    (deletePuzzle unlinkThrows cfg st auth now id).2 ≠ Except.error Failure.internal := by
  unfold deletePuzzle
  split
  · rename_i f hf
    have := authenticateAdmin_error _ _ _ _ f hf
    subst this
    simp
  · split
    · simp
    · rename_i puzzle _
      obtain ⟨files1, h1⟩ := unlinkIfExists_total unlinkThrows hfs st.files puzzle.filePath
      obtain ⟨files2, h2⟩ :=
        unlinkIfExists_total unlinkThrows hfs files1 puzzle.solutionFilePath
      simp only [h1, h2]
      simp

theorem mem_eraseP_of_ne_id (id : Nat) (l : List Puzzle) (p : Puzzle) (hp : p ∈ l)
    (hid : p.id ≠ id) : p ∈ l.eraseP fun q => decide (q.id = id) := by
  induction l with
  | nil => cases hp
  | cons a as ih =>
    by_cases ha : a.id = id
    · rw [List.eraseP_cons_of_pos (by simpa using ha)]
      rcases List.mem_cons.1 hp with rfl | hp
      · exact absurd ha hid
      · exact hp
    · rw [List.eraseP_cons_of_neg (by simpa using ha)]
      rcases List.mem_cons.1 hp with rfl | hp
      · exact List.mem_cons_self _ _
      · exact List.mem_cons_of_mem _ (ih hp)

theorem find_eraseP_none (id : Nat) (l : List Puzzle) (h : (l.map fun p => p.id).Nodup) :
    ((l.eraseP fun q => decide (q.id = id)).find? fun p => decide (p.id = id)) = none := by
  induction l with
  | nil => rfl
  | cons a as ih =>
    rw [List.map_cons, List.nodup_cons] at h
    by_cases ha : a.id = id
    · rw [List.eraseP_cons_of_pos (by simpa using ha), List.find?_eq_none]
      intro p hp
      have : p.id ≠ id := fun e => h.1 (List.mem_map.2 ⟨p, hp, e.trans ha.symm⟩)
      simpa using this
    · rw [List.eraseP_cons_of_neg (by simpa using ha),
        List.find?_cons_of_neg _ (by simpa using ha)]
      exact ih h.2

theorem deletePuzzle_references (unlinkThrows : Str → Bool) (cfg : Config) (st : State)
    (auth : Option Credential) (now id : Nat)
    (hres : (deletePuzzle unlinkThrows cfg st auth now id).2 ≠ Except.error Failure.internal)
    (h : References st) : References (deletePuzzle unlinkThrows cfg st auth now id).1 := by
  rcases deletePuzzle_cases unlinkThrows cfg st auth now id with h1 | h1 | h1
  · rw [h1.1]; exact h
  · exact absurd h1.1 hres
  · obtain ⟨_, hp, hs, _⟩ := h1
    intro s hmem
    rw [hs] at hmem
    obtain ⟨hs1, hs2⟩ := List.mem_filter.1 hmem
    simp only [decide_eq_true_eq] at hs2
    obtain ⟨p, hpm, hpid⟩ := h s hs1
    exact ⟨p, hp ▸ mem_eraseP_of_ne_id id _ p hpm (hpid ▸ hs2), hpid⟩

/-! ## Invariants of the transition system -/

/-- Every request other than a puzzle deletion that ends with the 500 answer
keeps every stored submission attached to a stored puzzle. -/
theorem step_keeps_references (env : Env) (st : State) (op : Op)
    (hop : op.deleteFails env st = false) (h : References st) :
    References (step env st op) := by
  cases op with
  | submit body now stamp newId => exact submit_references _ _ _ _ _ _ h
  | login req sessionId now =>
    exact references_of_same st _ (login_puzzles _ _ _ _ _)
      (by simp only [step, login_submissions]; exact List.Sublist.refl _) h
  | logout auth now =>
    exact references_of_same st _ (logout_puzzles _ _ _ _)
      (by simp only [step, logout_submissions]; exact List.Sublist.refl _) h
  | updateSubmission auth now id status =>
    exact updateSubmissionStatus_references _ _ _ _ _ _ h
  | deleteSubmission auth now id =>
    exact references_of_same st _ (deleteSubmission_puzzles _ _ _ _ _)
      (deleteSubmission_submissions _ _ _ _ _) h
  | createPuzzle auth now body uploads newId =>
    intro s hs
    simp only [step, createPuzzle_submissions] at hs
    obtain ⟨p, hp, hid⟩ := h s hs
    rcases createPuzzle_puzzles env.puzzleEnv env.cfg st auth now body uploads newId with
      h1 | ⟨q, _, _, h1⟩
    · exact ⟨p, by simp only [step, h1]; exact hp, hid⟩
    · exact ⟨p, by simp only [step, h1]; exact List.mem_append_left _ hp, hid⟩
  | updatePuzzle auth now id body =>
    rw [references_iff] at h ⊢
    intro s hs
    simp only [step, updatePuzzle_submissions] at hs
    simp only [step, updatePuzzle_puzzle_ids]
    exact h s hs
  | deletePuzzle auth now id =>
    refine deletePuzzle_references _ _ _ _ _ _ ?_ h
    simpa [Op.deleteFails] using hop

theorem step_uniquePuzzleIds (env : Env) (st : State) (op : Op) (h : UniquePuzzleIds st) :
    UniquePuzzleIds (step env st op) := by
  unfold UniquePuzzleIds at *
  cases op with
  | submit body now stamp newId => simpa only [step, submit_puzzles] using h
  | login req sessionId now => simpa only [step, login_puzzles] using h
  | logout auth now => simpa only [step, logout_puzzles] using h
  | updateSubmission auth now id status =>
    simpa only [step, updateSubmissionStatus_puzzles] using h
  | deleteSubmission auth now id => simpa only [step, deleteSubmission_puzzles] using h
  | createPuzzle auth now body uploads newId =>
    rcases createPuzzle_puzzles env.puzzleEnv env.cfg st auth now body uploads newId with
      h1 | ⟨q, hq, hnew, h1⟩
    · simpa only [step, h1] using h
    · simp only [step, h1, List.map_append, List.map_cons, List.map_nil]
      refine List.Nodup.append h (List.nodup_singleton _) ?_
      intro x hx hx'
      rw [List.mem_singleton] at hx'
      subst hx'
      exact hnew (hq ▸ hx)
  | updatePuzzle auth now id body => simpa only [step, updatePuzzle_puzzle_ids] using h
  | deletePuzzle auth now id =>
    rcases deletePuzzle_cases env.unlinkThrows env.cfg st auth now id with h1 | h1 | h1
    · simpa only [step, h1.1] using h
    · simp only [step, h1.2.1]
      exact h.sublist ((List.eraseP_sublist _).map _)
    · simp only [step, h1.2.1]
      exact h.sublist ((List.eraseP_sublist _).map _)

theorem reachable_uniquePuzzleIds (env : Env) (st : State) (h : Reachable env st) :
    UniquePuzzleIds st := by
  obtain ⟨ops, rfl⟩ := h
  have hgen : ∀ (l : List Op) (s : State), UniquePuzzleIds s → UniquePuzzleIds (run env s l) := by
    intro l
    induction l with
    | nil => intro s hs; exact hs
    | cons op l ih => intro s hs; exact ih _ (step_uniquePuzzleIds env s op hs)
  exact hgen ops emptyState List.nodup_nil

/-- Where `fs.unlinkSync` never throws, every reachable state keeps every stored
submission attached to a stored puzzle. -/
theorem reachable_references (env : Env) (hfs : ∀ f, env.unlinkThrows f = false) (st : State)
    (h : Reachable env st) : References st := by
  obtain ⟨ops, rfl⟩ := h
  have hgen : ∀ (l : List Op) (s : State), References s → References (run env s l) := by
    intro l
    induction l with
    | nil => intro s hs; exact hs
    | cons op l ih =>
      intro s hs
      refine ih _ (step_keeps_references env s op ?_ hs)
      cases op with
      | deletePuzzle auth now id =>
        simpa [Op.deleteFails] using
          deletePuzzle_never_internal env.unlinkThrows hfs env.cfg s auth now id
      | _ => rfl
  exact hgen ops emptyState (fun s hs => absurd hs (List.not_mem_nil _))

/-- A puzzle deletion that answers with success or with the 500 answer in a
reachable state has removed the puzzle record: a later fetch of the puzzle
answers NotFound. A successful deletion has also removed exactly the
submissions of the puzzle and the puzzle's two files. -/
theorem deletePuzzle_effects (env : Env) (st : State) (auth : Option Credential) (now id : Nat)
    (hreach : Reachable env st) :
    (((deletePuzzle env.unlinkThrows env.cfg st auth now id).2 = Except.ok () ∨
        (deletePuzzle env.unlinkThrows env.cfg st auth now id).2 =
          Except.error Failure.internal) →
        getPuzzle (deletePuzzle env.unlinkThrows env.cfg st auth now id).1 id =
          Except.error Failure.notFound) ∧
      ((deletePuzzle env.unlinkThrows env.cfg st auth now id).2 = Except.ok () →
        (deletePuzzle env.unlinkThrows env.cfg st auth now id).1.submissions =
            (st.submissions.filter fun s => decide (s.puzzleId ≠ id)) ∧
          ∃ puzzle, findPuzzleById st id = some puzzle ∧
            (∀ f, puzzle.filePath = some f → f ≠ [] →
              f ∉ (deletePuzzle env.unlinkThrows env.cfg st auth now id).1.files) ∧
            (∀ f, puzzle.solutionFilePath = some f → f ≠ [] →
              f ∉ (deletePuzzle env.unlinkThrows env.cfg st auth now id).1.files)) := by
  have hu := reachable_uniquePuzzleIds env st hreach
  constructor
  · intro hres
    have hp : (deletePuzzle env.unlinkThrows env.cfg st auth now id).1.puzzles =
        (st.puzzles.eraseP fun p => decide (p.id = id)) := by
      rcases deletePuzzle_cases env.unlinkThrows env.cfg st auth now id with h1 | h1 | h1
      · rcases hres with hres | hres
        · exact absurd hres h1.2.1
        · exact absurd hres h1.2.2
      · exact h1.2.1
      · exact h1.2.1
    have hfind : findPuzzleById (deletePuzzle env.unlinkThrows env.cfg st auth now id).1 id =
        none := by
      unfold findPuzzleById
      rw [hp]
      exact find_eraseP_none id _ hu
    simp only [getPuzzle, hfind]
  · intro hok
    rcases deletePuzzle_cases env.unlinkThrows env.cfg st auth now id with h1 | h1 | h1
    · exact absurd hok h1.2.1
    · rw [h1.1] at hok
      cases hok
    · obtain ⟨_, _, hs, puzzle, files1, hp, hf1, hf2⟩ := h1
      refine ⟨hs, puzzle, hp, ?_, ?_⟩
      · intro f hf hne hmem
        rw [hf] at hf1
        exact unlinkIfExists_removes _ _ _ f hne hf1
          ((unlinkIfExists_sublist _ _ _ _ hf2).subset hmem)
      · intro f hf hne
        rw [hf] at hf2
        exact unlinkIfExists_removes _ _ _ f hne hf2

/-! ## Claims on `correctSolvers` -/

/-- C1: whenever `GET /:id/correct` answers with a list, no two entries of that
list have equal normalized names (trim, lowercase, whitespace runs collapsed to
one space). -/
theorem correctSolvers_normalized_names_distinct (lower : Str → Str) (st : State)
    (puzzleId : Nat) (out : List SolverEntry)
    (h : correctSolvers lower st puzzleId = Except.ok out) :
    out.Pairwise fun a b => normalize lower a.name ≠ normalize lower b.name := by
  unfold correctSolvers at h
  split at h
  · cases h
  · injection h with h
    subst h
    rw [uniqueByName_eq, List.pairwise_map]
    exact firstOccurrences_keys_pairwise _ _

theorem correctSolvers_normalized_names_distinct_witness :
    correctSolvers asciiLower janeState 1 =
        Except.ok [⟨"Jane Doe".toList, some "jane@x.org".toList⟩,
          ⟨"Bob".toList, some "bob@x.org".toList⟩] ∧
      List.Pairwise (fun a b : SolverEntry => normalize asciiLower a.name ≠ normalize asciiLower b.name)
        [⟨"Jane Doe".toList, some "jane@x.org".toList⟩, ⟨"Bob".toList, some "bob@x.org".toList⟩] :=
  ⟨by decide, correctSolvers_normalized_names_distinct asciiLower janeState 1 _ (by decide)⟩

/-- C2: for an existing puzzle, `correctSolvers` returns the name and email of
exactly the first occurrences, by normalized name, of the puzzle's correct
submissions in ascending `submittedAt` order: the picked submissions have
pairwise distinct normalized names, are correct submissions of the puzzle, every
correct submission of the puzzle is represented by a pick with the same
normalized name that is not later than it, and the picks are in ascending
`submittedAt` order. -/
theorem correctSolvers_first_occurrences (lower : Str → Str) (st : State) (puzzleId : Nat)
    (p : Puzzle) (h : findPuzzleById st puzzleId = some p) :
    correctSolvers lower st puzzleId =
        Except.ok ((earliestPicks lower st puzzleId).map entryOf) ∧
      (earliestPicks lower st puzzleId).Pairwise
        (fun a b => normalize lower a.name ≠ normalize lower b.name) ∧
      (∀ e ∈ earliestPicks lower st puzzleId,
        e ∈ st.submissions ∧ e.puzzleId = puzzleId ∧ e.status = Status.correct) ∧
      (∀ s ∈ st.submissions, s.puzzleId = puzzleId → s.status = Status.correct →
        ∃ e ∈ earliestPicks lower st puzzleId,
          normalize lower e.name = normalize lower s.name ∧ e.submittedAt ≤ s.submittedAt) ∧
      (earliestPicks lower st puzzleId).Pairwise (fun a b => a.submittedAt ≤ b.submittedAt) := by
  refine ⟨?_, firstOccurrences_keys_pairwise _ _, ?_, ?_, ?_⟩
  · simp only [correctSolvers, h, uniqueByName_eq, earliestPicks]
  · intro e he
    exact (mem_correctSubs st puzzleId e).1 ((firstOccurrences_sublist _ _).subset he)
  · intro s hs hp hc
    have hmem : s ∈ correctSubs st puzzleId := (mem_correctSubs st puzzleId s).2 ⟨hs, hp, hc⟩
    obtain ⟨e, he, hk⟩ := firstOccurrences_covers (fun s => normalize lower s.name) _ s hmem
    exact ⟨e, he, hk, firstOccurrences_earliest _ (fun s => s.submittedAt) _
      (correctSubs_sorted st puzzleId) e he s hmem hk.symm⟩
  · exact (correctSubs_sorted st puzzleId).sublist (firstOccurrences_sublist _ _)

/-- The scenario of C2: "Jane Doe" (earlier) and "jane  doe" (later) on one
puzzle give one entry, carrying the earlier submission's name and email. -/
theorem correctSolvers_jane_doe :
    correctSolvers asciiLower janeState 1 =
      Except.ok [⟨"Jane Doe".toList, some "jane@x.org".toList⟩,
        ⟨"Bob".toList, some "bob@x.org".toList⟩] := by
  decide

theorem correctSolvers_first_occurrences_witness :
    findPuzzleById janeState 1 = some (samplePuzzle 1 1000) ∧
      correctSolvers asciiLower janeState 1 =
        Except.ok ((earliestPicks asciiLower janeState 1).map entryOf) ∧
      (earliestPicks asciiLower janeState 1).map entryOf =
        [⟨"Jane Doe".toList, some "jane@x.org".toList⟩, ⟨"Bob".toList, some "bob@x.org".toList⟩] :=
  ⟨by decide,
    (correctSolvers_first_occurrences asciiLower janeState 1 (samplePuzzle 1 1000) (by decide)).1,
    by decide⟩

/-! ## Claims on `computeLeaderboard` -/

/-- C3: every entry of the leaderboard has a `correctSubmissions` value equal to
the number of distinct puzzles on which a submission with the entry's name is
correct, that value is at least 1, and some stored submission with that name is
correct (a solver without a correct submission has no entry). -/
theorem computeLeaderboard_counts_distinct_puzzles (st : State) (e : LeaderboardEntry)
    (he : e ∈ computeLeaderboard st) :
    e.correctSubmissions = distinctPuzzlesSolved st.submissions e.name ∧
      1 ≤ e.correctSubmissions ∧
      ∃ s ∈ st.submissions, s.status = Status.correct ∧ s.name = e.name := by
  obtain ⟨row, hrow, hn, _, hc⟩ := mem_formatFrom _ 0 e he
  obtain ⟨⟨s, hs, hsc, hsn⟩, hcount, _⟩ :=
    row_of_groupByName st.submissions row (mem_aggregate _ row hrow)
  have heq : e.correctSubmissions = distinctPuzzlesSolved st.submissions e.name := by
    rw [hc, hn, hcount]
  refine ⟨heq, ?_, s, hs, hsc, hsn.trans hn.symm⟩
  rw [heq, distinctPuzzlesSolved]
  apply Finset.card_pos.2
  refine ⟨s.puzzleId, List.mem_toFinset.2 (List.mem_map.2 ⟨s, List.mem_filter.2 ⟨hs, ?_⟩, rfl⟩)⟩
  simp [hsc, hsn, hn]

theorem computeLeaderboard_counts_distinct_puzzles_witness :
    (⟨1, "Ann".toList, some "ann@x.org".toList, 2⟩ : LeaderboardEntry) ∈
        computeLeaderboard boardState ∧
      (2 = distinctPuzzlesSolved boardState.submissions "Ann".toList ∧ 1 ≤ 2 ∧
        ∃ s ∈ boardState.submissions, s.status = Status.correct ∧ s.name = "Ann".toList) :=
  ⟨by decide,
    computeLeaderboard_counts_distinct_puzzles boardState
      ⟨1, "Ann".toList, some "ann@x.org".toList, 2⟩ (by decide)⟩

/-- C4: the entries of the leaderboard are in descending order of
`correctSubmissions`, and entries with equal `correctSubmissions` are in
ascending order of the solver's `firstCorrect`, the minimum `submittedAt` over
all correct submissions of the solver: for every entry `a` placed before an
entry `b`, either `a` has more correct puzzles, or as many and a first correct
time that is not later. -/
theorem computeLeaderboard_ordered (st : State) :
    (computeLeaderboard st).Pairwise fun a b =>
      b.correctSubmissions < a.correctSubmissions ∨
        (a.correctSubmissions = b.correctSubmissions ∧
          firstCorrectOf st.submissions a.name ≤ firstCorrectOf st.submissions b.name) := by
  have hmem : (aggregate st.submissions).Pairwise fun a b =>
      rankBefore a b ∧ a.firstCorrect = firstCorrectOf st.submissions a.name ∧
        b.firstCorrect = firstCorrectOf st.submissions b.name := by
    refine (List.Pairwise.and_mem.1 (aggregate_sorted st.submissions)).imp ?_
    rintro a b ⟨ha, hb, hab⟩
    exact ⟨hab, (row_of_groupByName _ a (mem_aggregate _ a ha)).2.2,
      (row_of_groupByName _ b (mem_aggregate _ b hb)).2.2⟩
  refine pairwise_formatFrom _ _ ?_ _ hmem 0
  rintro a b i j ⟨hab, ha, hb⟩
  show _ ∨ (_ ∧ firstCorrectOf _ a.name ≤ firstCorrectOf _ b.name)
  rw [← ha, ← hb]
  exact hab

/-- C5: the leaderboard is the formatted first 100 rows of the sorted per-solver
sequence: it has `min 100 n` entries where `n` is the number of solvers (so at
most 100, and all of them when `n < 100`), and the entry at position `k` counted
from 0 has rank `k + 1` and the name, email and `correctSubmissions` of the
row at position `k` of the sorted sequence. -/
theorem computeLeaderboard_top_100 (st : State) :
    (computeLeaderboard st).length = min 100 (sortedRows st.submissions).length ∧
      (computeLeaderboard st).length ≤ 100 ∧
      ∀ k : Nat, (computeLeaderboard st)[k]? =
        (((sortedRows st.submissions).take 100)[k]?).map fun row =>
          { rank := k + 1, name := row.name, email := row.email,
            correctSubmissions := row.correctSubmissions } := by
  have hlen : (computeLeaderboard st).length = min 100 (sortedRows st.submissions).length := by
    simp [computeLeaderboard, aggregate, length_formatFrom]
  refine ⟨hlen, ?_, ?_⟩
  · rw [hlen]; exact Nat.min_le_left _ _
  · intro k
    rw [computeLeaderboard, getElem?_formatFrom, aggregate]
    simp

/-- C6, as stated, fails: the same two submissions stored in two orders give two
different leaderboards, because `$first` takes the email of the submission that
is met first. -/
theorem computeLeaderboard_depends_on_storage_order :
    emailOrderA.submissions.Perm emailOrderB.submissions ∧
      computeLeaderboard emailOrderA = [⟨1, "Ann".toList, some "ann@x.org".toList, 1⟩] ∧
      computeLeaderboard emailOrderB = [⟨1, "Ann".toList, some "ann@y.org".toList, 1⟩] ∧
      computeLeaderboard emailOrderA ≠ computeLeaderboard emailOrderB :=
  ⟨List.Perm.swap _ _ _, by decide, by decide, by decide⟩

/-- Two solvers tied exactly on `correctSubmissions` and `firstCorrect` are ranked
in the order in which their submissions are stored. -/
theorem computeLeaderboard_tie_follows_storage_order :
    tieOrderA.submissions.Perm tieOrderB.submissions ∧
      rankingOf (computeLeaderboard tieOrderA) = [(1, "Bob".toList, 1), (2, "Cy".toList, 1)] ∧
      rankingOf (computeLeaderboard tieOrderB) = [(1, "Cy".toList, 1), (2, "Bob".toList, 1)] :=
  ⟨List.Perm.swap _ _ _, by decide, by decide⟩

/-- C6, amended: when no two solvers tie exactly on both `correctSubmissions`
and `firstCorrect`, two storage orders of the same submissions give leaderboards
with identical rank, name and `correctSubmissions` at every position (the email
of an entry is not covered). -/
theorem computeLeaderboard_ranking_order_independent (st st' : State)
    (hperm : st.submissions.Perm st'.submissions) (hnotie : NoExactTie st.submissions) :
    rankingOf (computeLeaderboard st) = rankingOf (computeLeaderboard st') := by
  have hsorted : ∀ docs : List Submission, ((sortedRows docs).map rowCore).Pairwise
      fun a b => b.2.1 < a.2.1 ∨ (a.2.1 = b.2.1 ∧ a.2.2 ≤ b.2.2) := by
    intro docs
    rw [List.pairwise_map]
    exact sortedRows_sorted docs
  have hp : ((sortedRows st.submissions).map rowCore).Perm
      ((sortedRows st'.submissions).map rowCore) :=
    (((List.perm_insertionSort _ _).map rowCore).trans
      (rowCore_groupByName_perm _ _ hperm)).trans ((List.perm_insertionSort _ _).map rowCore).symm
  have heq : (sortedRows st.submissions).map rowCore =
      (sortedRows st'.submissions).map rowCore := by
    refine List.Perm.eq_of_sorted ?_ (hsorted _) (hsorted _) hp
    intro a b ha hb hab hba
    obtain ⟨r, hr, rfl⟩ := List.mem_map.1 ha
    obtain ⟨r', hr', rfl⟩ := List.mem_map.1 hb
    obtain ⟨⟨s, hs, hsc, hsn⟩, hc, hf⟩ :=
      row_of_groupByName _ r ((mem_sortedRows _ r).1 hr)
    obtain ⟨⟨s', hs', hsc', hsn'⟩, hc', hf'⟩ :=
      row_of_groupByName _ r' ((mem_sortedRows _ r').1 hr')
    simp only [rowCore] at hab hba ⊢
    have hceq : r.correctSubmissions = r'.correctSubmissions := by omega
    have hfeq : r.firstCorrect = r'.firstCorrect := by omega
    rw [← distinctPuzzlesSolved_perm _ _ hperm] at hc'
    rw [← firstCorrectOf_perm _ _ hperm] at hf'
    have hname : r.name = r'.name := by
      have := hnotie s hs s' (hperm.mem_iff.2 hs') hsc hsc'
        (by rw [hsn, hsn', ← hc, ← hc', hceq]) (by rw [hsn, hsn', ← hf, ← hf', hfeq])
      rw [← hsn, ← hsn', this]
    rw [hname, hceq, hfeq]
  unfold computeLeaderboard aggregate
  apply formatFrom_core_congr
  rw [List.map_take, List.map_take, heq]

theorem computeLeaderboard_ranking_order_independent_witness :
    boardState.submissions.Perm boardStateReversed.submissions ∧
      NoExactTie boardState.submissions ∧
      rankingOf (computeLeaderboard boardState) =
        rankingOf (computeLeaderboard boardStateReversed) :=
  ⟨(List.reverse_perm _).symm, by decide,
    computeLeaderboard_ranking_order_independent boardState boardStateReversed
      (List.reverse_perm _).symm (by decide)⟩

/-! ## Claims on submission intake -/

/-- C7, at the failing input: a complete request (name "Ann", answer "42") for
a stored puzzle whose deadline is 1000 arrives at the very millisecond 1000. The
deadline is not strictly after the current time and the puzzle's virtual
`status` is `closed`, yet the handler answers 201 and records the submission,
because it rejects only when `puzzle.deadline < new Date()`. One millisecond
earlier the same request is accepted as the claim says, one millisecond later
it is rejected with the deadline-passed error. -/
theorem submit_at_deadline_accepted :
    findPuzzleById openState 1 = some (samplePuzzle 1 1000) ∧
      ¬ 1000 < (samplePuzzle 1 1000).deadline ∧
      puzzleIsActive (samplePuzzle 1 1000) 1000 = false ∧
      submit asciiLower openState (sampleBody 1) 1000 1000 2 =
        ({ openState with submissions :=
            openState.submissions ++ [sampleSub 2 1 "Ann" "ann@x.org" 1000 Status.pending] },
          SubmitResponse.received 2) ∧
      (submit asciiLower openState (sampleBody 1) 999 999 2).2 = SubmitResponse.received 2 ∧
      submit asciiLower openState (sampleBody 1) 1001 1001 2 =
        (openState, SubmitResponse.deadlinePassed) :=
  ⟨by decide, by decide, by decide, by decide, by decide, by decide⟩

/-- The answers of the submit handler away from the deadline instant: a
`puzzleId` that cannot be cast ends with the 500 answer; an absent `puzzleId`
or one that names no stored puzzle is rejected with NotFound; on a stored puzzle
whose deadline is strictly before the current time the request is rejected with
the deadline-passed error whatever the other fields are; on a stored puzzle
whose deadline is not before the current time the request is accepted,
recording the new submission, exactly when `name` (trimmed) and `answer` are
present and not empty, and otherwise ends with the 500 answer. Every rejection
leaves the state unchanged. -/
theorem submit_outcomes (lower : Str → Str) (st : State) (body : SubmitBody)
    (now stamp newId : Nat) :
    (∀ raw, body.puzzleId = IdParam.malformed raw →
        submit lower st body now stamp newId = (st, SubmitResponse.failed)) ∧
      (body.puzzleId = IdParam.absent →
        submit lower st body now stamp newId = (st, SubmitResponse.puzzleNotFound)) ∧
      (∀ id, body.puzzleId = IdParam.objectId id → findPuzzleById st id = none →
        submit lower st body now stamp newId = (st, SubmitResponse.puzzleNotFound)) ∧
      (∀ id p, body.puzzleId = IdParam.objectId id → findPuzzleById st id = some p →
        p.deadline < now →
        submit lower st body now stamp newId = (st, SubmitResponse.deadlinePassed)) ∧
      (∀ id p, body.puzzleId = IdParam.objectId id → findPuzzleById st id = some p →
        now ≤ p.deadline →
        ((∃ name answer, body.name = some name ∧ body.answer = some answer ∧
            trim name ≠ [] ∧ answer ≠ []) →
          ∃ sub, newSubmission lower body stamp newId = some sub ∧
            submit lower st body now stamp newId =
              ({ st with submissions := st.submissions ++ [sub] },
                SubmitResponse.received newId)) ∧
        (¬ (∃ name answer, body.name = some name ∧ body.answer = some answer ∧
            trim name ≠ [] ∧ answer ≠ []) →
          submit lower st body now stamp newId = (st, SubmitResponse.failed))) := by
  refine ⟨?_, ?_, ?_, ?_, ?_⟩
  · intro raw h
    simp only [submit, h]
  · intro h
    simp only [submit, h]
  · intro id h hp
    simp only [submit, h, hp]
  · intro id p h hp hd
    simp only [submit, h, hp, hd, if_true]
  · intro id p h hp hd
    have hnot : ¬ p.deadline < now := by omega
    constructor
    · intro hv
      have hs := (newSubmission_isSome_iff lower body stamp newId).2 ⟨⟨id, h⟩, hv⟩
      obtain ⟨sub, hsub⟩ := Option.isSome_iff_exists.1 hs
      refine ⟨sub, hsub, ?_⟩
      simp only [submit, h, hp, hnot, if_false, hsub,
        (newSubmission_fields lower body stamp newId sub hsub).2.1]
    · intro hv
      have hs : newSubmission lower body stamp newId = none := by
        cases hsome : newSubmission lower body stamp newId with
        | none => rfl
        | some sub =>
          exact absurd
            ((newSubmission_isSome_iff lower body stamp newId).1 (by simp [hsome])).2 hv
      simp only [submit, h, hp, hnot, if_false, hs]

/-- The rejections of the submit handler on concrete requests: a `puzzleId`
that is not an identifier and a request without an answer end with the 500
answer, an absent `puzzleId` and an unknown puzzle with NotFound; none of them
records anything. -/
theorem submit_rejections :
    submit asciiLower openState
        { sampleBody 1 with puzzleId := IdParam.malformed "abc".toList } 500 500 2 =
        (openState, SubmitResponse.failed) ∧
      submit asciiLower openState { sampleBody 1 with puzzleId := IdParam.absent } 500 500 2 =
        (openState, SubmitResponse.puzzleNotFound) ∧
      submit asciiLower openState (sampleBody 7) 500 500 2 =
        (openState, SubmitResponse.puzzleNotFound) ∧
      submit asciiLower openState { sampleBody 1 with answer := none } 500 500 2 =
        (openState, SubmitResponse.failed) ∧
      submit asciiLower openState { sampleBody 1 with name := some "  ".toList } 500 500 2 =
        (openState, SubmitResponse.failed) :=
  ⟨by decide, by decide, by decide, by decide, by decide⟩

/-- C8: an accepted submit appends exactly one submission to the stored ones,
which are kept as they were and in their order; the new submission has status
`pending`, the identifier reported in the answer and the puzzle of the request
(a well-formed identifier);
puzzles, sessions and files are untouched; and a `status` field in the request
body changes nothing of the outcome. -/
theorem submit_adds_one_pending (lower : Str → Str) (st st' : State) (body : SubmitBody)
    (now stamp newId id : Nat)
    (h : submit lower st body now stamp newId = (st', SubmitResponse.received id)) :
    (∃ sub, st'.submissions = st.submissions ++ [sub] ∧ sub.status = Status.pending ∧
        sub.id = id ∧ body.puzzleId = IdParam.objectId sub.puzzleId) ∧
      st'.puzzles = st.puzzles ∧ st'.sessions = st.sessions ∧ st'.files = st.files ∧
      ∀ x : Option Str,
        submit lower st { body with status := x } now stamp newId =
          (st', SubmitResponse.received id) := by
  have hx : ∀ x : Option Str, submit lower st { body with status := x } now stamp newId =
      submit lower st body now stamp newId := fun x => rfl
  refine ⟨?_, ?_, ?_, ?_, fun x => (hx x).trans h⟩
  all_goals
    unfold submit at h
    split at h
    · cases h
    · cases h
    · split at h
      · cases h
      · split at h
        · cases h
        · split at h
          · cases h
          · rename_i sub hsub
            injection h with h1 h2
            injection h2 with h2
            subst h1
            first
              | rfl
              | exact ⟨sub, rfl, (newSubmission_fields _ _ _ _ sub hsub).1, h2,
                  (newSubmission_fields _ _ _ _ sub hsub).2.2.1⟩

theorem submit_adds_one_pending_witness :
    submit asciiLower openState { sampleBody 1 with status := some "correct".toList } 500 500 2 =
        ({ openState with submissions :=
            [sampleSub 1 1 "Ann" "ann@x.org" 10 Status.correct,
             sampleSub 2 1 "Ann" "ann@x.org" 500 Status.pending] },
          SubmitResponse.received 2) ∧
      (∃ sub, [sampleSub 1 1 "Ann" "ann@x.org" 10 Status.correct,
             sampleSub 2 1 "Ann" "ann@x.org" 500 Status.pending] =
          openState.submissions ++ [sub] ∧ sub.status = Status.pending ∧
        sub.id = 2 ∧
        { sampleBody 1 with status := some "correct".toList }.puzzleId =
          IdParam.objectId sub.puzzleId) :=
  ⟨by decide,
    (submit_adds_one_pending asciiLower openState
      { openState with submissions :=
          [sampleSub 1 1 "Ann" "ann@x.org" 10 Status.correct,
           sampleSub 2 1 "Ann" "ann@x.org" 500 Status.pending] }
      { sampleBody 1 with status := some "correct".toList } 500 500 2 2 (by decide)).1⟩

/-! ## Claims on the status of submissions -/

/-- C9, as stated, fails: in a run from a fresh installation a submission that
the administrator has marked correct is set back to pending by a second status
update. -/
theorem status_correct_back_to_pending :
    (run sampleEnv emptyState (statusTrace.take 4)).submissions.map
        (fun s => (s.id, s.status)) = [(1, Status.correct)] ∧
      (run sampleEnv emptyState statusTrace).submissions.map
        (fun s => (s.id, s.status)) = [(1, Status.pending)] :=
  ⟨by decide, by decide⟩

/-- C9, amended: a request other than the admin status update leaves the stored
submissions as they are, apart from removing some of them or appending one new
pending submission. The admin status update changes nothing when the status
value is outside pending/correct/incorrect, and an authenticated request then
gets the validation error; with a value among the three, an authenticated
request on a stored submission sets that submission's status to the value,
whatever its current status; and every submission stored after a status update
was stored before with the same fields, or is a previously stored submission
with the requested identifier whose status is now the requested value. -/
theorem status_set_only_by_admin_update (env : Env) (st : State) (op : Op) :
    (op.isUpdateSubmission = false →
        (step env st op).submissions.Sublist st.submissions ∨
          ∃ sub, sub.status = Status.pending ∧
            (step env st op).submissions = st.submissions ++ [sub]) ∧
      (∀ auth now id status, op = Op.updateSubmission auth now id status →
        (status ∉ [some "pending".toList, some "correct".toList, some "incorrect".toList] →
          step env st op = st ∧
            ∀ claims, authenticateAdmin env.cfg st auth now = Except.ok claims →
              (updateSubmissionStatus env.cfg st auth now id status).2 =
                Except.error Failure.validation) ∧
        (∀ claims v s, authenticateAdmin env.cfg st auth now = Except.ok claims →
          parseStatus status = some v →
          (st.submissions.find? fun x => decide (x.id = id)) = some s →
          updateSubmissionStatus env.cfg st auth now id status =
              ({ st with submissions := setStatusById id v st.submissions }, Except.ok ()) ∧
            { s with status := v } ∈ (step env st op).submissions) ∧
        (∀ s' ∈ (step env st op).submissions,
          s' ∈ st.submissions ∨
            ∃ s ∈ st.submissions, ∃ v, parseStatus status = some v ∧ s.id = id ∧
              s' = { s with status := v })) := by
  constructor
  · intro hop
    cases op with
    | submit body now stamp newId =>
      rcases submit_submissions env.lower st body now stamp newId with h | h
      · exact Or.inl (by simp only [step, h]; exact List.Sublist.refl _)
      · exact Or.inr h
    | login req sessionId now =>
      exact Or.inl (by simp only [step, login_submissions]; exact List.Sublist.refl _)
    | logout auth now =>
      exact Or.inl (by simp only [step, logout_submissions]; exact List.Sublist.refl _)
    | updateSubmission auth now id status => cases hop
    | deleteSubmission auth now id => exact Or.inl (deleteSubmission_submissions _ _ _ _ _)
    | createPuzzle auth now body uploads newId =>
      exact Or.inl (by simp only [step, createPuzzle_submissions]; exact List.Sublist.refl _)
    | updatePuzzle auth now id body =>
      exact Or.inl (by simp only [step, updatePuzzle_submissions]; exact List.Sublist.refl _)
    | deletePuzzle auth now id => exact Or.inl (deletePuzzle_submissions _ _ _ _ _ _)
  · rintro auth now id status rfl
    refine ⟨?_, ?_, ?_⟩
    · intro hbad
      have hnone := (parseStatus_eq_none_iff status).2 hbad
      constructor
      · rcases updateSubmissionStatus_cases env.cfg st auth now id status with h | ⟨v, hv, _⟩
        · exact h
        · rw [hnone] at hv
          cases hv
      · intro claims hauth
        simp only [updateSubmissionStatus, hauth, hnone]
    · intro claims v s hauth hv hs
      have hres : updateSubmissionStatus env.cfg st auth now id status =
          ({ st with submissions := setStatusById id v st.submissions }, Except.ok ()) := by
        simp only [updateSubmissionStatus, hauth, hv, hs]
      refine ⟨hres, ?_⟩
      simp only [step, hres]
      exact setStatusById_found id v _ s hs
    · intro s' hs'
      rcases updateSubmissionStatus_cases env.cfg st auth now id status with h | ⟨v, hv, h⟩
      · simp only [step, h] at hs'
        exact Or.inl hs'
      · simp only [step, h] at hs'
        rcases mem_setStatusById id v _ s' hs' with h1 | ⟨s, hs, hid, rfl⟩
        · exact Or.inl h1
        · exact Or.inr ⟨s, hs, v, hv, hid, rfl⟩

theorem status_set_only_by_admin_update_witness :
    ((step sampleEnv openState (Op.submit (sampleBody 1) 500 500 2)).submissions.Sublist
          openState.submissions ∨
        ∃ sub, sub.status = Status.pending ∧
          (step sampleEnv openState (Op.submit (sampleBody 1) 500 500 2)).submissions =
            openState.submissions ++ [sub]) ∧
      step sampleEnv openState
          (Op.updateSubmission (some sampleToken) 500 1 (some "done".toList)) = openState ∧
      (updateSubmissionStatus sampleCfg openState (some sampleToken) 500 1
            (some "pending".toList) =
          ({ openState with submissions := setStatusById 1 Status.pending openState.submissions },
            Except.ok ()) ∧
        { sampleSub 1 1 "Ann" "ann@x.org" 10 Status.correct with status := Status.pending } ∈
          (step sampleEnv openState
            (Op.updateSubmission (some sampleToken) 500 1 (some "pending".toList))).submissions) :=
  ⟨(status_set_only_by_admin_update sampleEnv openState
      (Op.submit (sampleBody 1) 500 500 2)).1 rfl,
    (((status_set_only_by_admin_update sampleEnv openState
      (Op.updateSubmission (some sampleToken) 500 1 (some "done".toList))).2
        (some sampleToken) 500 1 (some "done".toList) rfl).1 (by decide)).1,
    ((status_set_only_by_admin_update sampleEnv openState
      (Op.updateSubmission (some sampleToken) 500 1 (some "pending".toList))).2
        (some sampleToken) 500 1 (some "pending".toList) rfl).2.1
      ⟨some "admin@x.org".toList, "s1".toList, 86400⟩ Status.pending
      (sampleSub 1 1 "Ann" "ann@x.org" 10 Status.correct) (by decide) (by decide) (by decide)⟩

/-! ## Claims on admin sessions -/

/-- C10: for a credential issued by a successful login in a reachable state,
`authenticateAdmin` succeeds in every state that still holds the session record,
at every time before the expiry (24 hours after the login), in particular right
after the login; and a successful logout with that credential, after any
requests, removes exactly the session records with the credential's session
identifier (all other sessions and the rest of the state are unchanged), after
which `authenticateAdmin` with the same credential fails with Unauthorized at
every time, expired or not, and after any further requests that do not draw the
same session identifier again. -/
theorem logout_revokes_credential (env : Env) (st st1 : State) (req : LoginRequest)
    (sid : Str) (now : Nat) (tok : Credential) (hreach : Reachable env st)
    (hlogin : login env.cfg st req sid now = (st1, LoginResponse.token tok)) :
    (∀ (st2 : State) (now2 : Nat), now2 / 1000 < now / 1000 + 86400 →
        (∃ s ∈ st2.sessions, s.sessionId = sid) →
        ∃ claims, authenticateAdmin env.cfg st2 (some tok) now2 = Except.ok claims ∧
          claims.sessionId = sid) ∧
      (∀ now2 : Nat, now2 / 1000 < now / 1000 + 86400 →
        ∃ claims, authenticateAdmin env.cfg st1 (some tok) now2 = Except.ok claims) ∧
      (∀ (ops : List Op) (now2 : Nat) (st3 : State),
        logout env.cfg (run env st1 ops) (some tok) now2 = (st3, Except.ok ()) →
        st3 = { run env st1 ops with
            sessions := (run env st1 ops).sessions.filter fun s => decide (s.sessionId ≠ sid) } ∧
          (∀ s ∈ st3.sessions, s.sessionId ≠ sid) ∧
          ∀ (ops' : List Op) (now3 : Nat), (∀ op ∈ ops', op.drawsSession sid = false) →
            authenticateAdmin env.cfg (run env st3 ops') (some tok) now3 =
              Except.error Failure.unauthorized) := by
  obtain ⟨key, hkey, rfl, hst1, _⟩ := login_token_elim _ _ _ _ _ _ _ hlogin
  have hr1 : Reachable env st1 := by
    have := reachable_run env st hreach [Op.login req sid now]
    simpa only [run, List.foldl_cons, List.foldl_nil, step, hlogin] using this
  refine ⟨?_, ?_, ?_⟩
  · intro st2 now2 hexp hsess
    exact ⟨_, authenticateAdmin_ok env.cfg st2 key _ now2 hkey hexp hsess, rfl⟩
  · intro now2 hexp
    refine ⟨_, authenticateAdmin_ok env.cfg st1 key _ now2 hkey hexp ?_⟩
    refine ⟨sessionRecord req sid now, ?_, rfl⟩
    rw [hst1]
    exact List.mem_append_right _ (List.mem_singleton.2 rfl)
  · intro ops now2 st3 hout
    obtain ⟨claims, hauth, hst3⟩ := logout_ok_elim _ _ _ _ _ hout
    obtain ⟨key', _, htok, _, _⟩ := authenticateAdmin_ok_elim _ _ _ _ _ hauth
    have hclaims : claims.sessionId = sid := by
      injection htok with htok
      injection htok with _ hc
      rw [← hc]
    have hu := reachable_uniqueSessions env _ (reachable_run env st1 hr1 ops)
    rw [hclaims, eraseP_session_eq_filter sid _ hu] at hst3
    have hnone : ∀ s ∈ st3.sessions, s.sessionId ≠ sid := by
      intro s hs
      rw [hst3] at hs
      simpa using (List.mem_filter.1 hs).2
    refine ⟨hst3, hnone, ?_⟩
    intro ops' now3 hops
    exact authenticateAdmin_no_session env.cfg _ key _ now3
      (run_no_session env sid ops' hops st3 hnone)

theorem logout_revokes_credential_witness :
    Reachable sampleEnv emptyState ∧
      login sampleCfg emptyState adminLogin "s1".toList 0 =
        (loggedIn, LoginResponse.token sampleToken) ∧
      (∃ claims, authenticateAdmin sampleCfg loggedIn (some sampleToken) 5000 =
        Except.ok claims) ∧
      logout sampleCfg loggedIn (some sampleToken) 5000 = (emptyState, Except.ok ()) ∧
      authenticateAdmin sampleCfg (run sampleEnv emptyState []) (some sampleToken) 6000 =
        Except.error Failure.unauthorized :=
  ⟨⟨[], rfl⟩, by decide,
    (logout_revokes_credential sampleEnv emptyState loggedIn adminLogin "s1".toList 0
      sampleToken ⟨[], rfl⟩ (by decide)).2.1 5000 (by decide),
    by decide,
    ((logout_revokes_credential sampleEnv emptyState loggedIn adminLogin "s1".toList 0
      sampleToken ⟨[], rfl⟩ (by decide)).2.2 [] 5000 emptyState (by decide)).2.2 [] 6000
      (fun _ h => absurd h (List.not_mem_nil _))⟩

/-! ## Claims on the references from submissions to puzzles -/

/-- C11, at the failing input: in a run from a fresh installation the
administrator creates a puzzle with an uploaded file, a solver submits an
answer, and the administrator deletes the puzzle while `fs.unlinkSync` throws.
The deletion answers with the 500 error after the puzzle record has been
removed: a later fetch of the puzzle answers NotFound, but the file and the
submission are still stored, so a stored submission references no stored
puzzle. Where `fs.unlinkSync` does not throw, the same run removes both. -/
theorem deletePuzzle_failure_orphans_submission :
    (deletePuzzle failingEnv.unlinkThrows failingEnv.cfg
        (run failingEnv emptyState (orphanTrace.take 3)) (some sampleToken) 600 1).2 =
        Except.error Failure.internal ∧
      getPuzzle (run failingEnv emptyState orphanTrace) 1 = Except.error Failure.notFound ∧
      (run failingEnv emptyState orphanTrace).puzzles = [] ∧
      (run failingEnv emptyState orphanTrace).submissions.map (fun s => (s.id, s.puzzleId)) =
        [(1, 1)] ∧
      (run failingEnv emptyState orphanTrace).files = ["puzzleFile-1.png".toList] ∧
      ¬ References (run failingEnv emptyState orphanTrace) ∧
      (run sampleEnv emptyState orphanTrace).submissions = [] ∧
      (run sampleEnv emptyState orphanTrace).files = [] ∧
      References (run sampleEnv emptyState orphanTrace) :=
  ⟨by decide, by decide, by decide, by decide, by decide, by decide, by decide, by decide,
    by decide⟩

end QuantPuzzle
